import Mathlib

/-!
Verification development for the due-diligence multi-agent pipeline
(`src/graph/workflow.py`, `src/agents/...`, `src/tools/executor.py`).

The Python source is shallowly embedded: pure data manipulation is
translated into executable Lean functions, the language-model provider and
the external data tools are abstracted as oracle parameters (the spec
treats both as black-box collaborators), and Python exceptions are
modelled with `Except`.  Strings are modelled as `List Char` where the
source slices and scans character-wise, and as `String` elsewhere.
-/

namespace DD

/-! ## Python-style JSON values

Model of the values produced by Python's `json` module as used by the
source (`json.loads` / `json.dumps`).  Numbers are modelled as exact
rationals (the claims never exercise IEEE-float edge cases).
-/

inductive Json where
  | null : Json
  | bool : Bool → Json
  | num  : Rat → Json
  | str  : String → Json
  | arr  : List Json → Json
  | obj  : List (String × Json) → Json

/-! ### `json.loads` model

A fuel-based recursive-descent parser for the JSON grammar accepted by
`json.loads`: `null`, `true`, `false`, numbers with optional sign /
fraction / exponent and no leading zeros, strings with the standard
single-character escapes, arrays and objects, with JSON whitespace
between tokens.  (`\uXXXX` escapes, the `NaN`/`Infinity` extensions and
the control-character restriction inside strings are outside the
modelled fragment; no claim exercises them.)  `none` models a raised
`json.JSONDecodeError`.
-/

def jsonWs (c : Char) : Bool :=
  c = ' ' || c = '\t' || c = '\n' || c = '\r'

def skipWs : List Char → List Char
  | c :: cs => if jsonWs c then skipWs cs else c :: cs
  | [] => []

def escChar (c : Char) : Option Char :=
  if c = '"' then some '"'
  else if c = '\\' then some '\\'
  else if c = '/' then some '/'
  else if c = 'n' then some '\n'
  else if c = 't' then some '\t'
  else if c = 'r' then some '\r'
  else if c = 'b' then some '\x08'
  else if c = 'f' then some '\x0c'
  else none

def parseStrChars : Nat → List Char → Option (List Char × List Char)
  | 0, _ => none
  | _ + 1, [] => none
  | fuel + 1, c :: cs =>
    if c = '"' then some ([], cs)
    else if c = '\\' then
      match cs with
      | e :: cs' =>
        match escChar e with
        | some ec => (parseStrChars fuel cs').map (fun p => (ec :: p.1, p.2))
        | none => none
      | [] => none
    else (parseStrChars fuel cs).map (fun p => (c :: p.1, p.2))

def digitVal (c : Char) : Nat := c.toNat - '0'.toNat

def digitsToNat (ds : List Char) : Nat :=
  ds.foldl (fun acc c => 10 * acc + digitVal c) 0

/-- JSON integer part: `0` or a nonzero digit followed by digits. -/
def validIntDigits (ds : List Char) : Bool :=
  match ds with
  | [] => false
  | ['0'] => true
  | c :: _ => c ≠ '0'

/-- Assemble a decimal literal `(sign) mant / 10^fracLen * 10^exp` as an
exact rational, using only `Nat`/`Int` arithmetic and `mkRat`. -/
def decimalRat (neg : Bool) (mant : Nat) (fracLen : Nat) (exp : Int) : Rat :=
  let m : Int := if neg then -(mant : Int) else (mant : Int)
  let d : Nat := 10 ^ fracLen
  if 0 ≤ exp then mkRat (m * 10 ^ exp.toNat) d
  else mkRat m (d * 10 ^ (-exp).toNat)

def parseNum (cs : List Char) : Option (Json × List Char) :=
  let (neg, cs1) :=
    match cs with
    | '-' :: rest => (true, rest)
    | _ => (false, cs)
  let ds := cs1.takeWhile Char.isDigit
  let r1 := cs1.dropWhile Char.isDigit
  if validIntDigits ds then
    -- fractional part (a bare '.' with no digit is a parse error in json.loads)
    let fracPart : Option (Nat × Nat × List Char) :=
      match r1 with
      | '.' :: rest =>
        let fs := rest.takeWhile Char.isDigit
        let r' := rest.dropWhile Char.isDigit
        if (fs.isEmpty : Bool) then none else some (digitsToNat fs, fs.length, r')
      | _ => some (0, 0, r1)
    match fracPart with
    | none => none
    | some (frac, fracLen, r2) =>
      let mant := digitsToNat ds * 10 ^ fracLen + frac
      let (e, r3) : Int × List Char :=
        match r2 with
        | 'e' :: rest => parseExp rest r2
        | 'E' :: rest => parseExp rest r2
        | _ => (0, r2)
      some (.num (decimalRat neg mant fracLen e), r3)
  else none
where
  parseExp (rest orig : List Char) : Int × List Char :=
    let (eneg, rest1) :=
      match rest with
      | '-' :: r => (true, r)
      | '+' :: r => (false, r)
      | _ => (false, rest)
    let es := rest1.takeWhile Char.isDigit
    let r' := rest1.dropWhile Char.isDigit
    if (es.isEmpty : Bool) then (0, orig)
    else ((if eneg then -(digitsToNat es : Int) else (digitsToNat es : Int)), r')

mutual

def parseVal : Nat → List Char → Option (Json × List Char)
  | 0, _ => none
  | fuel + 1, cs =>
    match skipWs cs with
    | 'n' :: 'u' :: 'l' :: 'l' :: rest => some (.null, rest)
    | 't' :: 'r' :: 'u' :: 'e' :: rest => some (.bool true, rest)
    | 'f' :: 'a' :: 'l' :: 's' :: 'e' :: rest => some (.bool false, rest)
    | '"' :: rest =>
      (parseStrChars (rest.length + 1) rest).map
        (fun p => (.str (String.mk p.1), p.2))
    | '[' :: rest =>
      (match skipWs rest with
       | ']' :: rest' => some (.arr [], rest')
       | _ => (parseElems fuel rest).map (fun p => (.arr p.1, p.2)))
    | '\x7b' :: rest =>
      (match skipWs rest with
       | '\x7d' :: rest' => some (.obj [], rest')
       | _ => (parseMembers fuel rest).map (fun p => (.obj p.1, p.2)))
    | other => parseNum other

def parseElems : Nat → List Char → Option (List Json × List Char)
  | 0, _ => none
  | fuel + 1, cs => do
    let (v, rest) ← parseVal fuel cs
    match skipWs rest with
    | ',' :: rest' => (parseElems fuel rest').map (fun p => (v :: p.1, p.2))
    | ']' :: rest' => some ([v], rest')
    | _ => none

def parseMembers : Nat → List Char → Option (List (String × Json) × List Char)
  | 0, _ => none
  | fuel + 1, cs => do
    match skipWs cs with
    | '"' :: rest =>
      let (k, rest1) ← parseStrChars (rest.length + 1) rest
      match skipWs rest1 with
      | ':' :: rest2 => do
        let (v, rest3) ← parseVal fuel rest2
        match skipWs rest3 with
        | ',' :: rest4 =>
          (parseMembers fuel rest4).map (fun p => ((String.mk k, v) :: p.1, p.2))
        | '\x7d' :: rest4 => some ([(String.mk k, v)], rest4)
        | _ => none
      | _ => none
    | _ => none

end

/-- Model of `json.loads` on a character list: parse one JSON document and
require only whitespace after it. `none` models `json.JSONDecodeError`. -/
def jsonLoads (cs : List Char) : Option Json :=
  match parseVal (cs.length + 2) cs with
  | some (v, rest) => if skipWs rest = [] then some v else none
  | none => none

/-! ### `json.dumps` model

Only the fragment the source serializes is exercised (flat objects of
strings in `_tool_error`, default separators `", "` / `": "`).
-/

def escapeChar (c : Char) : String :=
  if c = '"' then "\\\""
  else if c = '\\' then "\\\\"
  else if c = '\n' then "\\n"
  else if c = '\t' then "\\t"
  else if c = '\r' then "\\r"
  else String.mk [c]

def escapeStr (s : String) : String :=
  String.join (s.toList.map escapeChar)

def dumpStr (s : String) : String :=
  "\"" ++ escapeStr s ++ "\""

def joinSep (sep : String) : List String → String
  | [] => ""
  | [s] => s
  | s :: rest => s ++ sep ++ joinSep sep rest

mutual

def jsonDumps : Json → String
  | .null => "null"
  | .bool true => "true"
  | .bool false => "false"
  | .num q => if q.den = 1 then toString q.num else toString q
  | .str s => dumpStr s
  | .arr xs => "[" ++ joinSep ", " (dumpList xs) ++ "]"
  | .obj kvs => "\x7b" ++ joinSep ", " (dumpMembers kvs) ++ "\x7d"

def dumpList : List Json → List String
  | [] => []
  | v :: rest => jsonDumps v :: dumpList rest

def dumpMembers : List (String × Json) → List String
  | [] => []
  | (k, v) :: rest => (dumpStr k ++ ": " ++ jsonDumps v) :: dumpMembers rest

end

/-! ## Python `str` helpers (on `List Char`) -/

/-- Characters stripped by Python's `str.strip()` (ASCII fragment). -/
def pyIsSpace (c : Char) : Bool :=
  c = ' ' || c = '\t' || c = '\n' || c = '\r' || c = '\x0b' || c = '\x0c'

/-- Model of Python `str.strip()`. -/
def pyStrip (cs : List Char) : List Char :=
  ((cs.dropWhile pyIsSpace).reverse.dropWhile pyIsSpace).reverse

/-- Model of Python `str.strip()` on `String`. -/
def pyStripS (s : String) : String :=
  String.mk (pyStrip s.toList)

/-- First index at which `pat` occurs as a contiguous sublist of `t`
(Python `str.find` / `str.index` result when ≥ 0). -/
def findSub (t pat : List Char) : Option Nat :=
  if pat.isPrefixOf t then some 0
  else
    match t with
    | [] => none
    | _ :: rest => (findSub rest pat).map (· + 1)

/-- Python `pat in t` for strings. -/
def containsSub (t pat : List Char) : Bool :=
  (findSub t pat).isSome

/-- Python slice `cs[a:b]` (for `0 ≤ a ≤ b`). -/
def pySlice (cs : List Char) (a b : Nat) : List Char :=
  (cs.drop a).take (b - a)

/-- Python `str.index(pat, k)` search result (`none` models a raised
`ValueError`). -/
def findSubFrom (t pat : List Char) (k : Nat) : Option Nat :=
  (findSub (t.drop k) pat).map (· + k)

/-- Python exceptions that escape the modelled functions. -/
inductive PyErr where
  | valueError : PyErr
  | typeError  : PyErr
deriving DecidableEq

def jsonFencePat : List Char := "```json".toList

def fencePat : List Char := "```".toList

/-- The fence-extraction step of `_parse_json_response`
(`src/agents/base.py` lines 155-163): carve out the first fenced block if
one is opened.  `str.index` raises `ValueError` when an opened fence is
never closed; that exception is not caught by the function. -/
def fenceClean (text : List Char) : Except PyErr (List Char) :=
  if containsSub text jsonFencePat then
    let start := (findSub text jsonFencePat).getD 0 + 7
    match findSubFrom text fencePat start with
    | some e => .ok (pyStrip (pySlice text start e))
    | none => .error .valueError
  else if containsSub text fencePat then
    let start := (findSub text fencePat).getD 0 + 3
    match findSubFrom text fencePat start with
    | some e => .ok (pyStrip (pySlice text start e))
    | none => .error .valueError
  else .ok text

/-- The brace-depth scan of `_parse_json_response` (lines 168-180):
starting on a `'{'`, return the length of the prefix ending at the first
character where the running depth returns to zero, `none` if it never
does.  Python checks `depth == 0` only after decrementing on `'}'`. -/
def braceScanLen : List Char → Int → Option Nat
  | [], _ => none
  | c :: cs, depth =>
    if c = '\x7b' then (braceScanLen cs (depth + 1)).map (· + 1)
    else if c = '\x7d' then
      (if depth - 1 = 0 then some 1 else (braceScanLen cs (depth - 1)).map (· + 1))
    else (braceScanLen cs depth).map (· + 1)

/-- The `{"raw": text}` fallback object. -/
def rawObj (text : List Char) : Json :=
  .obj [("raw", .str (String.mk text))]

/-- The first balanced brace-delimited span of `text`, as located by the
scan of `_parse_json_response`: from the first `'{'` (`text.find("{")`)
to the first point where the running depth returns to zero. -/
def firstSpan (text : List Char) : Option (List Char) :=
  match List.findIdx? (fun c => c = '\x7b') text with
  | none => none
  | some b =>
    match braceScanLen (text.drop b) 0 with
    | none => none
    | some len => some ((text.drop b).take len)

/-- Model of `_parse_json_response` (`src/agents/base.py` lines 153-181):
strip a fenced block if present, try `json.loads` on the cleaned text,
otherwise scan the original text for the first balanced brace span and try
to parse it, falling back to `{"raw": text}`. -/
def pyParseJsonResponse (text : List Char) : Except PyErr Json :=
  match fenceClean text with
  | .error e => .error e
  | .ok cleaned =>
    match jsonLoads cleaned with
    | some v => .ok v
    | none =>
      match firstSpan text with
      | none => .ok (rawObj text)
      | some span =>
        match jsonLoads span with
        | some v => .ok v
        | none => .ok (rawObj text)

/-- Running brace depth of the `_parse_json_response` scan after
consuming `cs`, starting from depth `d`. -/
def braceDepthFrom (d : Int) (cs : List Char) : Int :=
  cs.foldl (fun d c => if c = '\x7b' then d + 1 else if c = '\x7d' then d - 1 else d) d

/-- Every brace of `s` is structural from the point of view of the naive
depth scan: `s` starts with `'{'`, ends with `'}'`, its total depth is 0,
and the depth stays strictly positive on every proper non-empty prefix —
so the scan's first return to depth zero is exactly at the end of `s`.
(Braces inside JSON string literals break this; that is the
counterexample to the claim as stated.) -/
def braceExact (s : List Char) : Prop :=
  s.head? = some '\x7b' ∧ s.getLast? = some '\x7d' ∧ braceDepthFrom 0 s = 0 ∧
    ∀ n, n < s.length → 0 < n → 0 < braceDepthFrom 0 (s.take n)

instance (s : List Char) : Decidable (braceExact s) := by
  unfold braceExact
  infer_instance

/-- No backtick character (so no fence is recognised anywhere inside). -/
def backtickFree (cs : List Char) : Bool :=
  cs.all (fun c => c ≠ '\x60')

/-- No brace character. -/
def braceFree (cs : List Char) : Bool :=
  cs.all (fun c => c ≠ '\x7b' && c ≠ '\x7d')

/-! ## Python `dict` as an insertion-ordered association list -/

/-- First-binding lookup in an association list (Python dict `[]`/`.get`;
keys are unique in every dict the source builds). -/
def alookup (k : String) : List (String × α) → Option α
  | [] => none
  | (k1, v) :: m => if k1 = k then some v else alookup k m

def hasKey (m : List (String × Json)) (k : String) : Bool :=
  (alookup k m).isSome

/-- Set `m[k] = v`: replace in place if the key exists, else append. -/
def upsert (m : List (String × Json)) (k : String) (v : Json) :
    List (String × Json) :=
  if hasKey m k then m.map (fun kv => if kv.1 = k then (k, v) else kv)
  else m ++ [(k, v)]

/-- Python `dict.update`: fold the entries of `u` into `m` in order. -/
def dictUpdate (m u : List (String × Json)) : List (String × Json) :=
  u.foldl (fun acc kv => upsert acc kv.1 kv.2) m

/-! ## `src/graph/workflow.py` — graph builder and node implementations -/

/-- Topology of a compiled LangGraph `StateGraph`: registered node names
and directed edges (including the framework's start/end sentinels). -/
structure GraphModel where
  nodes : List String
  edges : List (String × String)

def startNode : String := "__start__"

def endNode : String := "__end__"

/-- Transcription of `build_graph` (`src/graph/workflow.py` lines 164-204):
the registered nodes and the wired edges, in source order.  The graph has
no conditional edges (`add_conditional_edges` is never called; the router
functions in `src/graph/routing.py` are dead code). -/
def buildGraphModel : GraphModel :=
  { nodes :=
      [ "input_processor", "phase1_parallel", "phase1_aggregator",
        "phase2_parallel", "phase2_aggregator", "fact_checker",
        "stress_test", "completeness", "orchestrator", "final_report_agent" ]
    edges :=
      [ (startNode, "input_processor"),
        ("input_processor", "phase1_parallel"),
        ("phase1_parallel", "phase1_aggregator"),
        ("phase1_aggregator", "phase2_parallel"),
        ("phase2_parallel", "phase2_aggregator"),
        ("phase2_aggregator", "fact_checker"),
        ("fact_checker", "stress_test"),
        ("stress_test", "completeness"),
        ("completeness", "orchestrator"),
        ("orchestrator", "final_report_agent"),
        ("final_report_agent", endNode) ] }

def successors (g : GraphModel) (n : String) : List String :=
  (g.edges.filter (fun e => e.1 = n)).map (·.2)

/-- Update returned by `input_processor`. -/
structure InputUpdate where
  current_phase : String
  errors : List String
  red_flags : List Json

/-- Model of `input_processor` (`src/graph/workflow.py` lines 42-51):
`state.get("company_name", "")` is the argument (`none` models a missing
key); a blank name appends the single validation error.  The node always
returns normally — it never halts the graph. -/
def inputProcessor (companyName : Option String) : InputUpdate :=
  { current_phase := "phase1"
    errors :=
      if (pyStripS (companyName.getD "")).isEmpty then
        ["company_name is required but was not provided."]
      else []
    red_flags := [] }

/-- Accumulator for the `as_completed` collection loop of
`phase1_parallel`. -/
structure StageAcc where
  merged : List (String × Json)
  errors : List String
  usage  : List (String × Json)

/-- One iteration of the `for future in as_completed(...)` loop
(`src/graph/workflow.py` lines 81-88): a successful agent's update is
merged and its usage recorded; an exception becomes an error string. -/
def stageStep (acc : StageAcc) (name : String)
    (res : Except String (List (String × Json) × Json)) : StageAcc :=
  match res with
  | .ok (r, us) =>
    { acc with merged := dictUpdate acc.merged r, usage := acc.usage ++ [(name, us)] }
  | .error e => { acc with errors := acc.errors ++ [name ++ " failed: " ++ e] }

def phase1AgentNames : List String :=
  ["financial_analyst", "market_research", "legal_risk", "management_team", "tech_product"]

/-- The whole `as_completed` collection loop of `phase1_parallel`. -/
def p1Fold (outcome : String → Except String (List (String × Json) × Json))
    (order : List String) (acc : StageAcc) : StageAcc :=
  order.foldl (fun acc n => stageStep acc n (outcome n)) acc

/-- Model of `phase1_parallel` (`src/graph/workflow.py` lines 54-94).
`outcome n` is the result of `_run_agent_with_usage` for agent `n`
(`.error` models a raised exception; the pair is the state update and the
thread's token usage); `order` is the completion order produced by
`as_completed`, an arbitrary permutation of the five agent names. -/
def phase1Parallel (outcome : String → Except String (List (String × Json) × Json))
    (order : List String) : List (String × Json) :=
  let fin := p1Fold outcome order ⟨[("current_phase", Json.str "phase1_done")], [], []⟩
  let m1 := upsert fin.merged "__agent_usage__" (Json.obj fin.usage)
  if fin.errors.isEmpty then m1
  else upsert m1 "errors" (Json.arr (fin.errors.map Json.str))

/-- A phase-2 agent's state update, with the `red_flags` entry split out:
`phase2_parallel` pops that key (`result.pop("red_flags", [])`) before
merging, so the model types it separately. -/
structure P2Update where
  fields : List (String × Json)
  redFlags : Option (List Json)

structure P2Acc where
  merged : List (String × Json)
  errors : List String
  flags  : List Json
  usage  : List (String × Json)

/-- One iteration of the phase-2 collection loop (`src/graph/workflow.py`
lines 119-128): extract and append `red_flags`, merge the rest. -/
def p2Step (acc : P2Acc) (name : String)
    (res : Except String (P2Update × Json)) : P2Acc :=
  match res with
  | .ok (u, us) =>
    { acc with
        flags := acc.flags ++ u.redFlags.getD []
        merged := dictUpdate acc.merged u.fields
        usage := acc.usage ++ [(name, us)] }
  | .error e => { acc with errors := acc.errors ++ [name ++ " failed: " ++ e] }

def phase2AgentNames : List String := ["bull_case", "bear_case", "valuation", "red_flag"]

/-- The whole `as_completed` collection loop of `phase2_parallel`. -/
def p2Fold (outcome : String → Except String (P2Update × Json))
    (order : List String) (acc : P2Acc) : P2Acc :=
  order.foldl (fun acc n => p2Step acc n (outcome n)) acc

/-- Model of `phase2_parallel` (`src/graph/workflow.py` lines 102-135).
`inputFlags` is `list(state.get("red_flags") or [])`. -/
def phase2Parallel (inputFlags : List Json)
    (outcome : String → Except String (P2Update × Json))
    (order : List String) : List (String × Json) :=
  let fin := p2Fold outcome order ⟨[("current_phase", Json.str "phase2_done")], [], inputFlags, []⟩
  let m1 := upsert fin.merged "red_flags" (Json.arr fin.flags)
  let m2 := upsert m1 "__agent_usage__" (Json.obj fin.usage)
  if fin.errors.isEmpty then m2
  else upsert m2 "errors" (Json.arr (fin.errors.map Json.str))

/-- The error-log entry an agent contributes to a stage, if any. -/
def errOf (outcome : String → Except String α) (n : String) : Option String :=
  match outcome n with
  | .ok _ => none
  | .error e => some (n ++ " failed: " ++ e)

/-- The red-flag records a phase-2 agent contributes to the stage. -/
def flagsOf (outcome : String → Except String (P2Update × Json)) (n : String) :
    List Json :=
  match outcome n with
  | .ok (u, _) => u.redFlags.getD []
  | .error _ => []

/-- Does the update write the key `k`? -/
def writesKey (r : List (String × Json)) (k : String) : Bool :=
  r.any (fun kv => kv.1 = k)

/-- No phase-1 agent in `order` other than `avoid` successfully writes `k`. -/
def p1Untouched (outcome : String → Except String (List (String × Json) × Json))
    (order : List String) (k : String) (avoid : Option String) : Bool :=
  order.all (fun n =>
    some n = avoid ||
      match outcome n with
      | .ok (r, _) => !(writesKey r k)
      | .error _ => true)

/-- No phase-2 agent in `order` other than `avoid` successfully writes `k`. -/
def p2Untouched (outcome : String → Except String (P2Update × Json))
    (order : List String) (k : String) (avoid : Option String) : Bool :=
  order.all (fun n =>
    some n = avoid ||
      match outcome n with
      | .ok (u, _) => !(writesKey u.fields k)
      | .error _ => true)

/-! ## `src/tools/executor.py` — tool dispatch -/

/-- Union of the tool-name tuples tested by the `if tool_name in (...)`
chain of `execute_tool_call` (lines 101-125); each tuple dispatches to its
module's `execute_tool`, which the model abstracts as the `env` oracle. -/
def registeredToolNames : List String :=
  [ "web_search", "news_search",
    "get_sec_filings", "get_company_facts",
    "extract_pdf_text", "extract_pdf_tables",
    "yf_get_info", "yf_get_financials", "yf_get_analyst_data",
    "google_trends_interest", "google_trends_related",
    "fred_get_series", "fred_search_series",
    "github_search_repos", "github_repo_stats",
    "search_patents", "get_patent_detail" ]

/-- The `_fallbacks` table of `_fallback_for` (lines 131-151). -/
def fallbacksTable : List (String × String) :=
  [ ("get_sec_filings", "web_search"),
    ("get_company_facts", "web_search"),
    ("yf_get_info", "web_search"),
    ("yf_get_financials", "web_search"),
    ("yf_get_analyst_data", "web_search"),
    ("extract_pdf_text", "web_search"),
    ("extract_pdf_tables", "web_search"),
    ("news_search", "web_search"),
    ("google_trends_interest", "web_search"),
    ("google_trends_related", "web_search"),
    ("fred_get_series", "web_search"),
    ("fred_search_series", "web_search"),
    ("github_search_repos", "web_search"),
    ("github_repo_stats", "web_search"),
    ("search_patents", "web_search"),
    ("get_patent_detail", "web_search") ]

/-- Model of `_fallback_for`: `_fallbacks.get(tool_name, "web_search")`. -/
def fallbackFor (toolName : String) : String :=
  match alookup toolName fallbacksTable with
  | some f => f
  | none => "web_search"

/-- Model of `_tool_error` (lines 154-162): `json.dumps` of the structured
error dict, in insertion order. -/
def toolError (toolName message fallback : String) : String :=
  jsonDumps (.obj
    [ ("error", .str "tool_unavailable"),
      ("tool", .str toolName),
      ("message", .str message),
      ("action", .str ("Use '" ++ fallback ++ "' to find the same information instead.")) ])

/-- Model of `execute_tool_call` (lines 95-128).  `env` abstracts the tool
modules' `execute_tool` implementations; `.error` models a raised
exception, caught by the surrounding `try`.  The function itself is total:
it never raises. -/
def executeToolCall (env : String → Json → Except String String)
    (toolName : String) (toolInput : Json) : String :=
  if registeredToolNames.contains toolName then
    match env toolName toolInput with
    | .ok s => s
    | .error exc => toolError toolName exc (fallbackFor toolName)
  else toolError toolName ("Unknown tool '" ++ toolName ++ "'") "web_search"

/-! ## `src/agents/base.py` — `run_agent` conversation loop

The Anthropic client is abstracted as a stream of responses, one per
round of the loop; each response carries its `tool_use` and `text`
content blocks.  (When a round has tool uses, each is dispatched through
`execute_tool_call` — which never raises, see above — and the results are
appended to the transcript feeding the next response; the transcript is
absorbed into the response stream abstraction.)
-/

structure ModelResponse where
  toolUses : List (String × String × Json)   -- (id, name, input) of `tool_use` blocks
  texts : List String                        -- `text` blocks

/-- `"\n".join(b.text for b in text_blocks).strip()`. -/
def joinTexts (ts : List String) : String :=
  pyStripS (String.intercalate "\n" ts)

/-- The `for ... else` sentinel (`src/agents/base.py` line 148). -/
def sentinelText : String :=
  "Agent exceeded maximum iterations without completing."

/-- The `for _ in range(max_iterations)` loop of `run_agent` (lines
104-150): round `i` takes response `responses i`; a round with tool uses
continues, a tool-free round breaks with its joined text, and exhausting
the range falls through to the sentinel; the final text is parsed by
`_parse_json_response`. -/
def runAgentGo (responses : Nat → ModelResponse) : Nat → Nat → Except PyErr Json
  | _, 0 => pyParseJsonResponse sentinelText.toList
  | i, remaining + 1 =>
    let resp := responses i
    if resp.toolUses.isEmpty then pyParseJsonResponse (joinTexts resp.texts).toList
    else runAgentGo responses (i + 1) remaining

/-- Model of `run_agent`'s return value (default `max_iterations = 10`). -/
def runAgentModel (responses : Nat → ModelResponse) (maxIterations : Nat) :
    Except PyErr Json :=
  runAgentGo responses 0 maxIterations

/-! ## Specialist agent `run` functions and the checkpoint agent maps

A phase checkpoint's agent map (`_agent_map` in `phase1_check.py`,
`phase2_check.py`, `phase3_check.py`) maps an agent name to its module's
`run` function and its state key.  `revise_agents` calls every mapped
function as `run_fn(working_state, revision_brief=brief)`; whether that
call binds depends on the function's declared parameters, so the model
records each `run`'s Python signature: `noBrief` embeds
`def run(state)` (the keyword argument raises `TypeError`), `withBrief`
embeds `def run(state, revision_brief=None)`.

`AgentOracle` abstracts `run_agent` (agent type and user message to the
parsed result dict; `.error` models a raised exception, e.g. rate-limit
exhaustion).
-/

def AgentOracle : Type :=
  String → String → Except String Json

inductive RunFn where
  | noBrief
      (f : List (String × Json) → Except String (List (String × Json)))
  | withBrief
      (f : List (String × Json) → Option String → Except String (List (String × Json)))

/-- Python call `run_fn(working_state, revision_brief=brief)`: binding the
keyword against `def run(state)` raises `TypeError`; against
`def run(state, revision_brief=None)` it binds the parameter. -/
def callWithBrief (fn : RunFn) (ws : List (String × Json)) (brief : String) :
    Except String (List (String × Json)) :=
  match fn with
  | .noBrief _ => .error "TypeError: run() got an unexpected keyword argument revision_brief"
  | .withBrief f => f ws (some brief)

/-- `state["company_name"]` (a missing key raises `KeyError`). -/
def stateCompany (ws : List (String × Json)) : Except String String :=
  match alookup "company_name" ws with
  | some (.str c) => .ok c
  | _ => .error "KeyError: company_name"

/-- `state.get("company_url") or ""`. -/
def stateUrl (ws : List (String × Json)) : String :=
  match alookup "company_url" ws with
  | some (.str u) => u
  | _ => ""

/-- `state.get("uploaded_docs") or []` (list of path strings). -/
def stateDocs (ws : List (String × Json)) : List String :=
  match alookup "uploaded_docs" ws with
  | some (.arr ds) => ds.filterMap (fun d => match d with | .str s => some s | _ => none)
  | _ => []

/-- The fixed task text of `financial_analyst.run`'s user message
(`src/agents/phase1/financial_analyst.py` lines 50-63). -/
def finTaskText : String :=
  "Conduct a thorough financial analysis of this company.\n\n" ++
  "STEP 1 — LIVE DATA (mandatory for public companies): " ++
  "Call yf_get_info(ticker) and yf_get_financials(ticker, 'quarterly') to retrieve " ++
  "today's stock price, market cap, latest quarterly financials, margins, and analyst targets. " ++
  "If you don't know the ticker, use web_search to find it first. " ++
  "ALL financial figures in your output MUST come from these live tool calls, " ++
  "not from training memory.\n\n" ++
  "STEP 2 — DEPTH: Use get_sec_filings for multi-year historical trends, " ++
  "web_search for private-company data, and any uploaded documents.\n\n" ++
  "Return your findings as the specified JSON object."

/-- Model of `financial_analyst.run` (`src/agents/phase1/financial_analyst.py`
lines 40-73): `def run(state)` — the signature declares **no**
`revision_brief` parameter. -/
def financialAnalystRun (oracle : AgentOracle) (ws : List (String × Json)) :
    Except String (List (String × Json)) := do
  let company ← stateCompany ws
  let url := stateUrl ws
  let docs := stateDocs ws
  let docNote :=
    if docs.isEmpty then ""
    else "\nUploaded documents available for analysis: " ++ joinSep ", " docs
  let userMessage :=
    "Company: " ++ company ++ "\n" ++ "URL: " ++ url ++ docNote ++ "\n\n" ++ finTaskText
  let result ← oracle "financial_analyst" userMessage
  pure [("financial_report", result)]

/-- The revision suffix appended by the `run` functions that accept a
`revision_brief` (e.g. `src/agents/phase1/management_team.py` lines 60-65). -/
def revisionSuffix (brief : String) : String :=
  "\n\nORCHESTRATOR REVISION REQUEST:\n" ++ brief ++ "\n" ++
  "Please specifically address this feedback in your revised analysis, " ++
  "using your available tools to fetch any missing or stale data."

/-- Model of `management_team.run` (`src/agents/phase1/management_team.py`
lines 48-75): `def run(state, revision_brief=None)`; a truthy (non-empty)
brief appends the revision suffix to the user message — the only
difference from an initial run. -/
def managementTeamRun (oracle : AgentOracle) (ws : List (String × Json))
    (revisionBrief : Option String) : Except String (List (String × Json)) := do
  let company ← stateCompany ws
  let url := stateUrl ws
  let base :=
    "Company: " ++ company ++ "\n" ++ "URL: " ++ url ++ "\n\n" ++
    "Assess the management team, founders, board, and organizational structure. " ++
    "Search for leadership backgrounds, track records, and culture signals. " ++
    "Return your findings as the specified JSON object."
  let userMessage :=
    match revisionBrief with
    | some b => if b.isEmpty then base else base ++ revisionSuffix b
    | none => base
  let result ← oracle "management_team" userMessage
  pure [("management_report", result)]

/-- An agent whose `run` is `def run(state)` and whose prompt construction
none of the claims touch: build the (elided) user message, call
`run_agent`, wrap the parsed result under the agent's state key. -/
def plainAgentRun (oracle : AgentOracle) (agentType stateKey : String)
    (ws : List (String × Json)) : Except String (List (String × Json)) := do
  let _ ← stateCompany ws
  let result ← oracle agentType ""
  pure [(stateKey, result)]

/-- As `plainAgentRun` but for a `def run(state, revision_brief=None)`
signature, appending `revisionSuffix` on a truthy brief. -/
def briefAgentRun (oracle : AgentOracle) (agentType stateKey : String)
    (ws : List (String × Json)) (revisionBrief : Option String) :
    Except String (List (String × Json)) := do
  let _ ← stateCompany ws
  let suffix :=
    match revisionBrief with
    | some b => if b.isEmpty then "" else revisionSuffix b
    | none => ""
  let result ← oracle agentType suffix
  pure [(stateKey, result)]

/-- `phase1_check._agent_map` (`src/agents/orchestrator/phase1_check.py`
lines 16-26), with each entry's actual Python signature: only
`management_team.run` declares a `revision_brief` parameter. -/
def phase1AgentMap (oracle : AgentOracle) : List (String × (RunFn × String)) :=
  [ ("financial_analyst", (.noBrief (financialAnalystRun oracle), "financial_report")),
    ("market_research", (.noBrief (plainAgentRun oracle "market_research" "market_report"), "market_report")),
    ("legal_risk", (.noBrief (plainAgentRun oracle "legal_risk" "legal_report"), "legal_report")),
    ("management_team", (.withBrief (managementTeamRun oracle), "management_report")),
    ("tech_product", (.noBrief (plainAgentRun oracle "tech_product" "tech_report"), "tech_report")) ]

/-- `phase2_check._agent_map` (`src/agents/orchestrator/phase2_check.py`
lines 20-27): `red_flag` is intentionally excluded; only `bear_case.run`
declares a `revision_brief` parameter. -/
def phase2AgentMap (oracle : AgentOracle) : List (String × (RunFn × String)) :=
  [ ("bull_case", (.noBrief (plainAgentRun oracle "bull_case" "bull_case"), "bull_case")),
    ("bear_case", (.withBrief (briefAgentRun oracle "bear_case" "bear_case"), "bear_case")),
    ("valuation", (.noBrief (plainAgentRun oracle "valuation" "valuation"), "valuation")) ]

/-! ## `src/agents/orchestrator/_check_base.py` — `revise_agents` -/

/-- The fields of one evaluation dict that `revise_agents` reads, with the
source's `.get` defaults: `e.get("needs_revision")` truthiness,
`e.get("score", 1.0)`, `e.get("agent_name")`,
`e.get("revision_brief") or ""`. -/
structure EvalRec where
  agentName : Option String
  score : Option Rat
  needsRevision : Bool
  revisionBrief : Option String

/-- `e.get("score", 1.0)`. -/
def scoreD (e : EvalRec) : Rat := e.score.getD 1

/-- The revision threshold `0.65`. -/
def revThreshold : Rat := mkRat 65 100

/-- The `to_revise` filter (`_check_base.py` lines 149-153):
flagged, scored strictly below 0.65, and present in the agent map. -/
def eligibleEvals (agentMap : List (String × (RunFn × String)))
    (evals : List EvalRec) : List EvalRec :=
  evals.filter (fun e =>
    e.needsRevision && decide (scoreD e < revThreshold) &&
      (match e.agentName with
       | some n => (alookup n agentMap).isSome
       | none => false))

/-- `to_revise.sort(key=lambda e: e.get("score", 1.0))` — Python's sort is
stable and ascending; insertion sort on `≤` of the key is exactly that. -/
def sortEvals (evals : List EvalRec) : List EvalRec :=
  evals.insertionSort (fun a b => scoreD a ≤ scoreD b)

/-- Result of `revise_agents`, instrumented with the list of agent names
for which `run_fn(working_state, revision_brief=brief)` was executed
(line 168), in execution order. -/
structure ReviseResult where
  workingState : List (String × Json)
  stateUpdates : List (String × Json)
  attempted : List String

/-- The `for ev in to_revise` loop (`_check_base.py` lines 158-173): an
empty brief is skipped (`continue`); otherwise the mapped `run` is called
with the brief; a successful result is merged into both the working state
and the returned updates; an exception is caught and logged. -/
def reviseGo (agentMap : List (String × (RunFn × String))) :
    List EvalRec → List (String × Json) → List (String × Json) → List String → ReviseResult
  | [], ws, upd, tr => ⟨ws, upd, tr⟩
  | ev :: rest, ws, upd, tr =>
    -- `agent_name = ev["agent_name"]` — present, since the filter required it
    let name := ev.agentName.getD ""
    let brief := ev.revisionBrief.getD ""
    if brief.isEmpty then reviseGo agentMap rest ws upd tr
    else
      match alookup name agentMap with
      | none => reviseGo agentMap rest ws upd tr   -- unreachable: the filter checked membership
      | some (fn, _) =>
        match callWithBrief fn ws brief with
        | .ok result =>
          reviseGo agentMap rest (dictUpdate ws result) (dictUpdate upd result) (tr ++ [name])
        | .error _ => reviseGo agentMap rest ws upd (tr ++ [name])

/-- Model of `revise_agents` (`_check_base.py` lines 142-174): filter,
stable-sort ascending by score (worst first), cap at 3 per phase, then
run the revision loop. -/
def reviseAgents (agentMap : List (String × (RunFn × String)))
    (workingState : List (String × Json)) (evals : List EvalRec) : ReviseResult :=
  let toRevise := (sortEvals (eligibleEvals agentMap evals)).take 3
  reviseGo agentMap toRevise workingState [] []

/-- The sort key relation of `sortEvals` is total. -/
instance : IsTotal EvalRec (fun a b => scoreD a ≤ scoreD b) :=
  ⟨fun a b => le_total (scoreD a) (scoreD b)⟩

/-- The sort key relation of `sortEvals` is transitive. -/
instance : IsTrans EvalRec (fun a b => scoreD a ≤ scoreD b) :=
  ⟨fun _ _ _ => le_trans⟩

/-! ## Concrete fixtures used by witnesses and counterexamples -/

/-- Phase-1 outcome assignment in which `market_research` raises and the
others succeed (`financial_analyst` producing its report field). -/
def c5OutcomeP1 : String → Except String (List (String × Json) × Json) :=
  fun n =>
    if n = "financial_analyst" then .ok ([("financial_report", Json.null)], Json.obj [])
    else if n = "market_research" then .error "boom"
    else .ok ([], Json.obj [])

/-- Phase-2 outcome assignment in which `valuation` raises, `bull_case`
succeeds, and `red_flag` contributes two flags. -/
def c5OutcomeP2 : String → Except String (P2Update × Json) :=
  fun n =>
    if n = "bull_case" then .ok (⟨[("bull_case", Json.null)], none⟩, Json.obj [])
    else if n = "valuation" then .error "crash"
    else if n = "red_flag" then .ok (⟨[], some [Json.str "f1", Json.str "f2"]⟩, Json.obj [])
    else .ok (⟨[], none⟩, Json.obj [])

/-- The spec's end-to-end scenario evaluations: `financial_analyst` scores
0.4 and is flagged with a non-empty brief; the other four phase-1 agents
score ≥ 0.7 and are not flagged. -/
def c2Evals : List EvalRec :=
  [ ⟨some "financial_analyst", some (mkRat 4 10), true,
      some "Call yf_get_info for live figures; quantify revenue CAGR; verify TAM."⟩,
    ⟨some "market_research", some (mkRat 7 10), false, none⟩,
    ⟨some "legal_risk", some (mkRat 8 10), false, none⟩,
    ⟨some "management_team", some (mkRat 7 10), false, none⟩,
    ⟨some "tech_product", some (mkRat 9 10), false, none⟩ ]

/-- A revisable run function that succeeds and writes one field. -/
def cFn : RunFn := .withBrief (fun _ _ => .ok [("x", Json.null)])

/-- A four-agent map of revisable functions. -/
def c4Map : List (String × (RunFn × String)) :=
  [("a", (cFn, "x")), ("b", (cFn, "x")), ("c", (cFn, "x")), ("d", (cFn, "x"))]

/-- Four flagged below-threshold evaluations; the worst-scoring one
(`a`, score 0.1) has no revision brief. -/
def c4Evals : List EvalRec :=
  [ ⟨some "d", some (mkRat 4 10), true, some "fix d"⟩,
    ⟨some "a", some (mkRat 1 10), true, none⟩,
    ⟨some "b", some (mkRat 2 10), true, some "fix b"⟩,
    ⟨some "c", some (mkRat 3 10), true, some "fix c"⟩ ]

/-- As `c4Evals` but every agent has a non-empty brief. -/
def c4EvalsW : List EvalRec :=
  [ ⟨some "d", some (mkRat 4 10), true, some "fix d"⟩,
    ⟨some "a", some (mkRat 1 10), true, some "fix a"⟩,
    ⟨some "b", some (mkRat 2 10), true, some "fix b"⟩,
    ⟨some "c", some (mkRat 3 10), true, some "fix c"⟩ ]

/-- A response stream that requests a tool call on every round. -/
def c8Responses : Nat → ModelResponse :=
  fun _ => ⟨[("toolu_1", "web_search", Json.obj [("query", Json.str "acme")])], []⟩

example : findSub "abcd".toList "cd".toList = some 2 := by decide
example : findSub "abcd".toList "ce".toList = none := by decide
example : pyStrip " \n ab c\n ".toList = "ab c".toList := by decide
example : jsonLoads "null".toList = some Json.null := rfl
example :
    jsonLoads " \x7b\"a\": [1, true, \"x\"]\x7d ".toList =
      some (Json.obj [("a", Json.arr [Json.num 1, Json.bool true, Json.str "x"])]) := rfl
example : jsonLoads "Agent exceeded maximum iterations without completing.".toList = none := rfl
example :
    (match jsonLoads "-12.25".toList with
     | some (Json.num q) => (q.num, q.den)
     | _ => (0, 0)) = (-49, 4) := by decide
example : jsonLoads "\x7b\"a\": 1".toList = none := rfl
example : jsonDumps (Json.obj [("error", Json.str "tool_unavailable"), ("n", Json.num 3)]) =
    "\x7b\"error\": \"tool_unavailable\", \"n\": 3\x7d" := rfl
example : pyParseJsonResponse "\x7b\"a\": 1\x7d".toList = .ok (Json.obj [("a", Json.num 1)]) := rfl
example :
    pyParseJsonResponse "```json\n\x7b\"a\": 1\x7d\n```".toList =
      .ok (Json.obj [("a", Json.num 1)]) := rfl
example :
    pyParseJsonResponse "Here you go: \x7b\"a\": 1\x7d hope it helps".toList =
      .ok (Json.obj [("a", Json.num 1)]) := rfl
example : pyParseJsonResponse "```json \x7b\"a\": 1\x7d".toList = .error PyErr.valueError := rfl
example : pyParseJsonResponse "[1]".toList = .ok (Json.arr [Json.num 1]) := rfl
example :
    pyParseJsonResponse "see \x7b\"a\": \"\x7d\"\x7d done".toList =
      .ok (rawObj "see \x7b\"a\": \"\x7d\"\x7d done".toList) := rfl
example : pyParseJsonResponse "no json here".toList = .ok (rawObj "no json here".toList) := rfl
example : dictUpdate [("a", Json.num 1), ("b", Json.num 2)] [("b", Json.num 3), ("c", Json.num 4)] =
    [("a", Json.num 1), ("b", Json.num 3), ("c", Json.num 4)] := rfl

/-! ## Association-list (Python dict) lemmas -/

theorem alookup_append_right {α : Type} (m : List (String × α)) (k : String) (v : α)
    (h : alookup k m = none) : alookup k (m ++ [(k, v)]) = some v := by
  induction m with
  | nil => simp [alookup]
  | cons kv m ih =>
    obtain ⟨k1, v1⟩ := kv
    by_cases hk : k1 = k
    · simp [alookup, hk] at h
    · simp only [alookup, List.cons_append, if_neg hk] at h ⊢
      exact ih h

theorem alookup_map_replace (m : List (String × Json)) (k : String) (v : Json)
    (h : (alookup k m).isSome) :
    alookup k (m.map (fun kv => if kv.1 = k then (k, v) else kv)) = some v := by
  induction m with
  | nil => simp [alookup] at h
  | cons kv m ih =>
    obtain ⟨k1, v1⟩ := kv
    by_cases hk : k1 = k
    · subst hk
      simp only [List.map_cons]
      simp [alookup]
    · simp only [List.map_cons]
      rw [show (if (k1, v1).1 = k then (k, v) else (k1, v1)) = (k1, v1) from
        if_neg (by simpa using hk)]
      simp only [alookup, if_neg hk] at h ⊢
      exact ih h

theorem alookup_upsert_self (m : List (String × Json)) (k : String) (v : Json) :
    alookup k (upsert m k v) = some v := by
  unfold upsert hasKey
  by_cases h : (alookup k m).isSome
  · simpa [h] using alookup_map_replace m k v h
  · have hnone : alookup k m = none := by
      cases hh : alookup k m with
      | none => rfl
      | some w => simp [hh] at h
    simpa [h] using alookup_append_right m k v hnone

theorem writesKey_false_iff (r : List (String × Json)) (k : String) :
    writesKey r k = false ↔ ∀ kv ∈ r, kv.1 ≠ k := by
  simp [writesKey]

theorem alookup_map_replace_other (m : List (String × Json)) {k k' : String} (v : Json)
    (h : k' ≠ k) :
    alookup k' (m.map (fun kv => if kv.1 = k then (k, v) else kv)) = alookup k' m := by
  induction m with
  | nil => rfl
  | cons kv m ih =>
    obtain ⟨k1, v1⟩ := kv
    by_cases hk : k1 = k
    · subst hk
      simp only [List.map_cons]
      have hkk : ¬ (k1 = k') := fun hh => h (hh.symm)
      simp [alookup, hkk, ih]
    · simp only [List.map_cons]
      rw [show (if (k1, v1).1 = k then (k, v) else (k1, v1)) = (k1, v1) from
        if_neg (by simpa using hk)]
      by_cases hk1 : k1 = k'
      · simp [alookup, hk1]
      · simp [alookup, hk1, ih]

theorem alookup_append_single_other {α : Type} (m : List (String × α)) {k k' : String}
    (v : α) (h : k' ≠ k) : alookup k' (m ++ [(k, v)]) = alookup k' m := by
  induction m with
  | nil => simp [alookup, Ne.symm h]
  | cons kv m ih =>
    obtain ⟨k1, v1⟩ := kv
    by_cases hk1 : k1 = k'
    · simp [alookup, hk1]
    · simp [alookup, hk1, ih]

theorem alookup_upsert_other (m : List (String × Json)) {k k' : String} (v : Json)
    (h : k' ≠ k) : alookup k' (upsert m k v) = alookup k' m := by
  unfold upsert hasKey
  by_cases hm : (alookup k m).isSome
  · simpa [hm] using alookup_map_replace_other m v h
  · simpa [hm] using alookup_append_single_other m v h

theorem alookup_dictUpdate_untouched (m u : List (String × Json)) (k : String)
    (h : writesKey u k = false) :
    alookup k (dictUpdate m u) = alookup k m := by
  induction u generalizing m with
  | nil => rfl
  | cons kv u ih =>
    have h1 : kv.1 ≠ k := by
      have := (writesKey_false_iff _ _).mp h
      exact this kv (by simp)
    have h2 : writesKey u k = false := by
      rw [writesKey_false_iff]
      intro kv' hkv'
      exact (writesKey_false_iff _ _).mp h kv' (by simp [hkv'])
    show alookup k (dictUpdate (upsert m kv.1 kv.2) u) = alookup k m
    rw [ih _ h2, alookup_upsert_other _ _ (fun hh => h1 hh.symm)]

theorem alookup_dictUpdate_write (u : List (String × Json)) (k : String) (v : Json) :
    (u.map Prod.fst).Nodup → alookup k u = some v →
    ∀ m : List (String × Json), alookup k (dictUpdate m u) = some v := by
  induction u with
  | nil => intro _ hv; simp [alookup] at hv
  | cons kv u ih =>
    intro hnd hv m
    obtain ⟨k1, v1⟩ := kv
    rw [List.map_cons, List.nodup_cons] at hnd
    show alookup k (dictUpdate (upsert m k1 v1) u) = some v
    by_cases hk : k1 = k
    · subst hk
      have hnotin : k1 ∉ u.map Prod.fst := hnd.1
      have hw : writesKey u k1 = false := by
        rw [writesKey_false_iff]
        intro kv' hkv' hkk
        exact hnotin (List.mem_map.mpr ⟨kv', hkv', hkk⟩)
      have hv1 : v1 = v := by simpa [alookup] using hv
      rw [alookup_dictUpdate_untouched _ _ _ hw, alookup_upsert_self, hv1]
    · have hv' : alookup k u = some v := by simpa [alookup, hk] using hv
      exact ih hnd.2 hv' (upsert m k1 v1)

/-! ## Parallel-stage fold lemmas -/

theorem p1Fold_errors (outcome : String → Except String (List (String × Json) × Json))
    (order : List String) (acc : StageAcc) :
    (p1Fold outcome order acc).errors = acc.errors ++ order.filterMap (errOf outcome) := by
  induction order generalizing acc with
  | nil => simp [p1Fold]
  | cons n order ih =>
    show (p1Fold outcome order (stageStep acc n (outcome n))).errors = _
    rw [ih]
    cases h : outcome n with
    | ok p => simp [stageStep, errOf, h, List.filterMap_cons]
    | error e => simp [stageStep, errOf, h, List.filterMap_cons]

theorem p2Fold_errors (outcome : String → Except String (P2Update × Json))
    (order : List String) (acc : P2Acc) :
    (p2Fold outcome order acc).errors = acc.errors ++ order.filterMap (errOf outcome) := by
  induction order generalizing acc with
  | nil => simp [p2Fold]
  | cons n order ih =>
    show (p2Fold outcome order (p2Step acc n (outcome n))).errors = _
    rw [ih]
    cases h : outcome n with
    | ok p => simp [p2Step, errOf, h, List.filterMap_cons]
    | error e => simp [p2Step, errOf, h, List.filterMap_cons]

theorem p2Fold_flags (outcome : String → Except String (P2Update × Json))
    (order : List String) (acc : P2Acc) :
    (p2Fold outcome order acc).flags = acc.flags ++ (order.map (flagsOf outcome)).flatten := by
  induction order generalizing acc with
  | nil => simp [p2Fold]
  | cons n order ih =>
    show (p2Fold outcome order (p2Step acc n (outcome n))).flags = _
    rw [ih]
    cases h : outcome n with
    | ok p => obtain ⟨u, us⟩ := p; simp [p2Step, flagsOf, h]
    | error e => simp [p2Step, flagsOf, h]

theorem p1Fold_merge_untouched (outcome : String → Except String (List (String × Json) × Json))
    (order : List String) (acc : StageAcc) (k : String)
    (h : p1Untouched outcome order k none = true) :
    alookup k (p1Fold outcome order acc).merged = alookup k acc.merged := by
  induction order generalizing acc with
  | nil => rfl
  | cons n order ih =>
    rw [p1Untouched, List.all_cons] at h
    have h1 := (Bool.and_eq_true _ _).mp h
    show alookup k (p1Fold outcome order (stageStep acc n (outcome n))).merged = _
    rw [ih _ h1.2]
    cases hn : outcome n with
    | ok p =>
      have hw : writesKey p.1 k = false := by
        have := h1.1
        rw [hn] at this
        simpa using this
      obtain ⟨r, us⟩ := p
      simpa [stageStep, hn] using alookup_dictUpdate_untouched acc.merged r k (by simpa using hw)
    | error e => simp [stageStep, hn]

theorem p2Fold_merge_untouched (outcome : String → Except String (P2Update × Json))
    (order : List String) (acc : P2Acc) (k : String)
    (h : p2Untouched outcome order k none = true) :
    alookup k (p2Fold outcome order acc).merged = alookup k acc.merged := by
  induction order generalizing acc with
  | nil => rfl
  | cons n order ih =>
    rw [p2Untouched, List.all_cons] at h
    have h1 := (Bool.and_eq_true _ _).mp h
    show alookup k (p2Fold outcome order (p2Step acc n (outcome n))).merged = _
    rw [ih _ h1.2]
    cases hn : outcome n with
    | ok p =>
      have hw : writesKey p.1.fields k = false := by
        have := h1.1
        rw [hn] at this
        simpa using this
      obtain ⟨u, us⟩ := p
      simpa [p2Step, hn] using alookup_dictUpdate_untouched acc.merged u.fields k (by simpa using hw)
    | error e => simp [p2Step, hn]

theorem p1Untouched_drop_avoid
    (outcome : String → Except String (List (String × Json) × Json))
    (order : List String) (k : String) (A : String) (hA : A ∉ order)
    (h : p1Untouched outcome order k (some A) = true) :
    p1Untouched outcome order k none = true := by
  rw [p1Untouched, List.all_eq_true] at h ⊢
  intro n hn
  have := h n hn
  rcases (Bool.or_eq_true _ _).mp this with h1 | h2
  · exact absurd (by simpa using h1 : n = A) (fun hh => hA (hh ▸ hn))
  · simp [h2]

theorem p2Untouched_drop_avoid (outcome : String → Except String (P2Update × Json))
    (order : List String) (k : String) (A : String) (hA : A ∉ order)
    (h : p2Untouched outcome order k (some A) = true) :
    p2Untouched outcome order k none = true := by
  rw [p2Untouched, List.all_eq_true] at h ⊢
  intro n hn
  have := h n hn
  rcases (Bool.or_eq_true _ _).mp this with h1 | h2
  · exact absurd (by simpa using h1 : n = A) (fun hh => hA (hh ▸ hn))
  · simp [h2]

theorem p1Fold_merge_write (outcome : String → Except String (List (String × Json) × Json))
    (order : List String) (acc : StageAcc) (k : String) (v : Json) (A : String)
    (hA : A ∈ order) (hnd : order.Nodup)
    (rA : List (String × Json)) (usA : Json) (hok : outcome A = .ok (rA, usA))
    (hv : alookup k rA = some v) (hrnd : (rA.map Prod.fst).Nodup)
    (hothers : p1Untouched outcome order k (some A) = true) :
    alookup k (p1Fold outcome order acc).merged = some v := by
  obtain ⟨l1, l2, rfl⟩ := List.append_of_mem hA
  have hAl2 : A ∉ l2 := by
    have : (A :: l2).Nodup := (List.sublist_append_right l1 (A :: l2)).nodup hnd
    exact (List.nodup_cons.mp this).1
  have hothers2 : p1Untouched outcome l2 k (some A) = true := by
    rw [p1Untouched, List.all_eq_true] at hothers ⊢
    intro n hn
    exact hothers n (by simp [hn])
  have hnone2 := p1Untouched_drop_avoid outcome l2 k A hAl2 hothers2
  show alookup k (p1Fold outcome (l1 ++ A :: l2) acc).merged = some v
  rw [p1Fold, List.foldl_append, List.foldl_cons]
  have : List.foldl (fun acc n => stageStep acc n (outcome n))
      (stageStep (List.foldl (fun acc n => stageStep acc n (outcome n)) acc l1) A (outcome A)) l2 =
      p1Fold outcome l2 (stageStep (p1Fold outcome l1 acc) A (outcome A)) := rfl
  rw [this, p1Fold_merge_untouched outcome l2 _ k hnone2]
  simpa [stageStep, hok] using
    alookup_dictUpdate_write rA k v hrnd hv (p1Fold outcome l1 acc).merged

theorem p2Fold_merge_write (outcome : String → Except String (P2Update × Json))
    (order : List String) (acc : P2Acc) (k : String) (v : Json) (A : String)
    (hA : A ∈ order) (hnd : order.Nodup)
    (uA : P2Update) (usA : Json) (hok : outcome A = .ok (uA, usA))
    (hv : alookup k uA.fields = some v) (hrnd : (uA.fields.map Prod.fst).Nodup)
    (hothers : p2Untouched outcome order k (some A) = true) :
    alookup k (p2Fold outcome order acc).merged = some v := by
  obtain ⟨l1, l2, rfl⟩ := List.append_of_mem hA
  have hAl2 : A ∉ l2 := by
    have : (A :: l2).Nodup := (List.sublist_append_right l1 (A :: l2)).nodup hnd
    exact (List.nodup_cons.mp this).1
  have hothers2 : p2Untouched outcome l2 k (some A) = true := by
    rw [p2Untouched, List.all_eq_true] at hothers ⊢
    intro n hn
    exact hothers n (by simp [hn])
  have hnone2 := p2Untouched_drop_avoid outcome l2 k A hAl2 hothers2
  show alookup k (p2Fold outcome (l1 ++ A :: l2) acc).merged = some v
  rw [p2Fold, List.foldl_append, List.foldl_cons]
  have : List.foldl (fun acc n => p2Step acc n (outcome n))
      (p2Step (List.foldl (fun acc n => p2Step acc n (outcome n)) acc l1) A (outcome A)) l2 =
      p2Fold outcome l2 (p2Step (p2Fold outcome l1 acc) A (outcome A)) := rfl
  rw [this, p2Fold_merge_untouched outcome l2 _ k hnone2]
  simpa [p2Step, hok] using
    alookup_dictUpdate_write uA.fields k v hrnd hv (p2Fold outcome l1 acc).merged

/-! ## Claim theorems: parallel stages -/

/-- C9: across Phase 2 the red-flags list is append-only — for every input
flag list, per-agent outcome assignment and completion order, the
`red_flags` entry returned by `phase2_parallel` is exactly the input list
followed by the newly contributed records (in completion order), so the
input is an unmodified prefix and the length never decreases. -/
theorem claim_C9 (inputFlags : List Json)
    (outcome : String → Except String (P2Update × Json)) (order : List String) :
    ∃ newFlags : List Json,
      alookup "red_flags" (phase2Parallel inputFlags outcome order) =
        some (Json.arr (inputFlags ++ newFlags)) ∧
      inputFlags <+: inputFlags ++ newFlags ∧
      inputFlags.length ≤ (inputFlags ++ newFlags).length := by
  refine ⟨(order.map (flagsOf outcome)).flatten, ?_, ⟨_, rfl⟩, by simp⟩
  unfold phase2Parallel
  have hflags : (p2Fold outcome order
      ⟨[("current_phase", Json.str "phase2_done")], [], inputFlags, []⟩).flags =
      inputFlags ++ (order.map (flagsOf outcome)).flatten := by
    rw [p2Fold_flags]
  cases he : (p2Fold outcome order
      ⟨[("current_phase", Json.str "phase2_done")], [], inputFlags, []⟩).errors.isEmpty with
  | true =>
    simp only [he, if_true]
    rw [alookup_upsert_other _ _ (by decide), alookup_upsert_self, hflags]
  | false =>
    simp only [he, Bool.false_eq_true, if_false]
    rw [alookup_upsert_other _ _ (by decide), alookup_upsert_other _ _ (by decide),
      alookup_upsert_self, hflags]

/-- C5: parallel-stage fault isolation, for both `phase1_parallel` and
`phase2_parallel`: whenever agent `B`'s run raises and agent `A`'s run
succeeds producing its own output field `k` (and no sibling writes `k`),
the stage still returns a merged update with `A`'s field intact, `B`
contributes exactly an error-log entry, and a field `kb` that no
successful agent writes (e.g. `B`'s own output field) is absent from the
merge — the stage itself always returns normally. -/
theorem claim_C5 :
    (∀ (outcome : String → Except String (List (String × Json) × Json))
       (order : List String) (A B : String) (rA : List (String × Json)) (usA : Json)
       (e : String) (k kb : String) (v : Json),
       A ∈ order → B ∈ order → order.Nodup →
       outcome A = .ok (rA, usA) → outcome B = .error e →
       alookup k rA = some v → (rA.map Prod.fst).Nodup →
       p1Untouched outcome order k (some A) = true →
       k ∉ ["current_phase", "__agent_usage__", "errors"] →
       p1Untouched outcome order kb none = true →
       kb ∉ ["current_phase", "__agent_usage__", "errors"] →
       alookup k (phase1Parallel outcome order) = some v ∧
       (∃ es, alookup "errors" (phase1Parallel outcome order) = some (Json.arr es) ∧
         Json.str (B ++ " failed: " ++ e) ∈ es) ∧
       alookup kb (phase1Parallel outcome order) = none) ∧
    (∀ (inputFlags : List Json) (outcome : String → Except String (P2Update × Json))
       (order : List String) (A B : String) (uA : P2Update) (usA : Json)
       (e : String) (k kb : String) (v : Json),
       A ∈ order → B ∈ order → order.Nodup →
       outcome A = .ok (uA, usA) → outcome B = .error e →
       alookup k uA.fields = some v → (uA.fields.map Prod.fst).Nodup →
       p2Untouched outcome order k (some A) = true →
       k ∉ ["current_phase", "red_flags", "__agent_usage__", "errors"] →
       p2Untouched outcome order kb none = true →
       kb ∉ ["current_phase", "red_flags", "__agent_usage__", "errors"] →
       alookup k (phase2Parallel inputFlags outcome order) = some v ∧
       (∃ es, alookup "errors" (phase2Parallel inputFlags outcome order) = some (Json.arr es) ∧
         Json.str (B ++ " failed: " ++ e) ∈ es) ∧
       alookup kb (phase2Parallel inputFlags outcome order) = none) := by
  constructor
  · intro outcome order A B rA usA e k kb v hA hB hnd hok hfB hv hrnd hothers hkres hkbnone hkbres
    simp only [List.mem_cons, List.not_mem_nil, or_false, not_or] at hkres hkbres
    obtain ⟨hk1, hk2, hk3⟩ := hkres
    obtain ⟨hkb1, hkb2, hkb3⟩ := hkbres
    have hentry : (B ++ " failed: " ++ e) ∈
        (p1Fold outcome order ⟨[("current_phase", Json.str "phase1_done")], [], []⟩).errors := by
      rw [p1Fold_errors]
      exact List.mem_append_right _ (List.mem_filterMap.mpr ⟨B, hB, by simp [errOf, hfB]⟩)
    have hne : (p1Fold outcome order
        ⟨[("current_phase", Json.str "phase1_done")], [], []⟩).errors.isEmpty = false := by
      cases hh : (p1Fold outcome order
          ⟨[("current_phase", Json.str "phase1_done")], [], []⟩).errors.isEmpty with
      | true => exact absurd (List.isEmpty_iff.mp hh ▸ hentry) (List.not_mem_nil _)
      | false => rfl
    unfold phase1Parallel
    simp only [hne, Bool.false_eq_true, if_false]
    refine ⟨?_, ?_, ?_⟩
    · rw [alookup_upsert_other _ _ hk3, alookup_upsert_other _ _ hk2]
      exact p1Fold_merge_write outcome order _ k v A hA hnd rA usA hok hv hrnd hothers
    · exact ⟨_, alookup_upsert_self _ _ _, List.mem_map_of_mem _ hentry⟩
    · rw [alookup_upsert_other _ _ hkb3, alookup_upsert_other _ _ hkb2,
        p1Fold_merge_untouched outcome order _ kb hkbnone]
      simp [alookup, Ne.symm hkb1]
  · intro inputFlags outcome order A B uA usA e k kb v hA hB hnd hok hfB hv hrnd hothers
      hkres hkbnone hkbres
    simp only [List.mem_cons, List.not_mem_nil, or_false, not_or] at hkres hkbres
    obtain ⟨hk1, hkrf, hk2, hk3⟩ := hkres
    obtain ⟨hkb1, hkbrf, hkb2, hkb3⟩ := hkbres
    have hentry : (B ++ " failed: " ++ e) ∈
        (p2Fold outcome order
          ⟨[("current_phase", Json.str "phase2_done")], [], inputFlags, []⟩).errors := by
      rw [p2Fold_errors]
      exact List.mem_append_right _ (List.mem_filterMap.mpr ⟨B, hB, by simp [errOf, hfB]⟩)
    have hne : (p2Fold outcome order
        ⟨[("current_phase", Json.str "phase2_done")], [], inputFlags, []⟩).errors.isEmpty
        = false := by
      cases hh : (p2Fold outcome order
          ⟨[("current_phase", Json.str "phase2_done")], [], inputFlags, []⟩).errors.isEmpty with
      | true => exact absurd (List.isEmpty_iff.mp hh ▸ hentry) (List.not_mem_nil _)
      | false => rfl
    unfold phase2Parallel
    simp only [hne, Bool.false_eq_true, if_false]
    refine ⟨?_, ?_, ?_⟩
    · rw [alookup_upsert_other _ _ hk3, alookup_upsert_other _ _ hk2,
        alookup_upsert_other _ _ hkrf]
      exact p2Fold_merge_write outcome order _ k v A hA hnd uA usA hok hv hrnd hothers
    · exact ⟨_, alookup_upsert_self _ _ _, List.mem_map_of_mem _ hentry⟩
    · rw [alookup_upsert_other _ _ hkb3, alookup_upsert_other _ _ hkb2,
        alookup_upsert_other _ _ hkbrf,
        p2Fold_merge_untouched outcome order _ kb hkbnone]
      simp [alookup, Ne.symm hkb1]


/-- Witness for C5: in Phase 1, `market_research` raising does not stop
`financial_analyst`'s report from reaching the merge; the error list
carries the failure entry and `market_report` is absent.  In Phase 2,
`valuation` raising does not stop `bull_case`'s output. -/
theorem claim_C5_witness :
    alookup "financial_report" (phase1Parallel c5OutcomeP1 phase1AgentNames) = some Json.null ∧
    (∃ es, alookup "errors" (phase1Parallel c5OutcomeP1 phase1AgentNames) =
        some (Json.arr es) ∧
      Json.str ("market_research" ++ " failed: " ++ "boom") ∈ es) ∧
    alookup "market_report" (phase1Parallel c5OutcomeP1 phase1AgentNames) = none ∧
    alookup "bull_case" (phase2Parallel [Json.str "f0"] c5OutcomeP2 phase2AgentNames) =
      some Json.null ∧
    alookup "valuation" (phase2Parallel [Json.str "f0"] c5OutcomeP2 phase2AgentNames) = none := by
  have h1 := claim_C5.1 c5OutcomeP1 phase1AgentNames "financial_analyst" "market_research"
    [("financial_report", Json.null)] (Json.obj []) "boom" "financial_report" "market_report"
    Json.null (by decide) (by decide) (by decide) rfl rfl rfl (by decide) rfl (by decide)
    rfl (by decide)
  have h2 := claim_C5.2 [Json.str "f0"] c5OutcomeP2 phase2AgentNames "bull_case" "valuation"
    ⟨[("bull_case", Json.null)], none⟩ (Json.obj []) "crash" "bull_case" "valuation"
    Json.null (by decide) (by decide) (by decide) rfl rfl rfl (by decide) rfl (by decide)
    rfl (by decide)
  exact ⟨h1.1, h1.2.1, h1.2.2, h2.1, h2.2.2⟩

/-! ## Claim theorems: pipeline topology and input validation -/

/-- C1 (code evidence): the compiled graph of `build_graph` is the plain
chain `input_processor → phase1_parallel → phase1_aggregator →
phase2_parallel → phase2_aggregator → fact_checker → stress_test →
completeness → orchestrator → final_report_agent`; the sole successor of
`phase1_aggregator` is `phase2_parallel` and of `phase2_aggregator` is
`fact_checker`, and no quality-gate checkpoint node (`phase1_check`,
`phase2_check`, `phase3_check`) is registered anywhere — contrary to the
claim (and to the checkpoint modules' own docstrings), no quality gate
runs between the aggregates and the next phase; the only orchestrator
node sits strictly between `completeness` and `final_report_agent`. -/
theorem claim_C1 :
    successors buildGraphModel "phase1_aggregator" = ["phase2_parallel"] ∧
    successors buildGraphModel "phase2_aggregator" = ["fact_checker"] ∧
    successors buildGraphModel "completeness" = ["orchestrator"] ∧
    successors buildGraphModel "orchestrator" = ["final_report_agent"] ∧
    buildGraphModel.nodes =
      [ "input_processor", "phase1_parallel", "phase1_aggregator",
        "phase2_parallel", "phase2_aggregator", "fact_checker",
        "stress_test", "completeness", "orchestrator", "final_report_agent" ] ∧
    "phase1_check" ∉ buildGraphModel.nodes ∧
    "phase2_check" ∉ buildGraphModel.nodes ∧
    "phase3_check" ∉ buildGraphModel.nodes := by
  refine ⟨rfl, rfl, rfl, rfl, rfl, ?_, ?_, ?_⟩ <;> decide

/-- C3 counterexample: a run with a blank `company_name` is **not**
prevented from starting — `input_processor` records the single validation
error but still advances the phase marker to `"phase1"`, and the only
edge out of `input_processor` in the compiled graph is the unconditional
one into `phase1_parallel`, so Phase 1 executes anyway. -/
theorem claim_C3_counterexample :
    (inputProcessor (some "")).errors = ["company_name is required but was not provided."] ∧
    (inputProcessor (some "")).current_phase = "phase1" ∧
    successors buildGraphModel "input_processor" = ["phase1_parallel"] := by
  exact ⟨rfl, rfl, rfl⟩

/-- C3 (amended): input validation flags a missing or blank
`company_name` — and nothing else — as a validation error, but it never
halts the pipeline: `input_processor` always sets the phase marker to
`"phase1"` and the graph proceeds into `phase1_parallel` unconditionally
(there are no conditional edges). -/
theorem claim_C3_amended :
    (∀ companyName : Option String,
      ((inputProcessor companyName).errors ≠ [] ↔
        (pyStripS (companyName.getD "")).isEmpty = true)) ∧
    (∀ companyName : Option String,
      (inputProcessor companyName).errors ≠ [] →
        (inputProcessor companyName).errors =
          ["company_name is required but was not provided."]) ∧
    (∀ companyName : Option String, (inputProcessor companyName).current_phase = "phase1") ∧
    successors buildGraphModel "input_processor" = ["phase1_parallel"] := by
  refine ⟨?_, ?_, fun _ => rfl, rfl⟩
  · intro companyName
    unfold inputProcessor
    cases h : (pyStripS (companyName.getD "")).isEmpty <;> simp [h]
  · intro companyName
    unfold inputProcessor
    cases h : (pyStripS (companyName.getD "")).isEmpty <;> simp [h]

/-- Witness for the amended C3 at concrete inputs: a present non-blank
name yields no error; a whitespace-only name yields the error. -/
theorem claim_C3_amended_witness :
    (inputProcessor (some "Acme Corp")).errors = [] ∧
    (inputProcessor (some " ")).errors ≠ [] := by
  refine ⟨?_, ?_⟩
  · by_contra hne
    exact absurd ((claim_C3_amended.1 (some "Acme Corp")).mp hne) (by decide)
  · exact (claim_C3_amended.1 (some " ")).mpr (by decide)

/-! ## Claim theorems: the revision pass -/

/-- C2 (code evidence): `financial_analyst` is registered as re-runnable
in the Phase-1 checkpoint's agent map, but its `run` declares no
`revision_brief` parameter, so the call
`run_fn(working_state, revision_brief=brief)` made by `revise_agents`
raises `TypeError`; in the spec's end-to-end scenario (financial_analyst
scored 0.4 and flagged with a non-empty brief, the other four agents
passing) the revision is attempted once, fails, is swallowed by the
`except` clause, and no revised financial report is ever merged — the
state updates are empty and the working state is unchanged. -/
theorem claim_C2 :
    (∀ (oracle : AgentOracle) (ws : List (String × Json)) (brief : String)
       (fn : RunFn) (key : String),
       alookup "financial_analyst" (phase1AgentMap oracle) = some (fn, key) →
       callWithBrief fn ws brief =
         .error "TypeError: run() got an unexpected keyword argument revision_brief") ∧
    (∀ (oracle : AgentOracle) (ws : List (String × Json)),
      (reviseAgents (phase1AgentMap oracle) ws c2Evals).stateUpdates = [] ∧
      (reviseAgents (phase1AgentMap oracle) ws c2Evals).workingState = ws ∧
      (reviseAgents (phase1AgentMap oracle) ws c2Evals).attempted = ["financial_analyst"]) := by
  constructor
  · intro oracle ws brief fn key h
    have hfn : fn = RunFn.noBrief (financialAnalystRun oracle) := by
      simp [phase1AgentMap, alookup] at h
      exact h.1.symm
    rw [hfn]
    rfl
  · intro oracle ws
    exact ⟨rfl, rfl, rfl⟩

/-- Witness for C2 at a concrete oracle, state and brief. -/
theorem claim_C2_witness :
    callWithBrief (RunFn.noBrief (financialAnalystRun (fun _ _ => .ok Json.null)))
        [("company_name", Json.str "Acme Corp")] "add live data" =
      .error "TypeError: run() got an unexpected keyword argument revision_brief" ∧
    (reviseAgents (phase1AgentMap (fun _ _ => .ok Json.null))
        [("company_name", Json.str "Acme Corp")] c2Evals).stateUpdates = [] := by
  constructor
  · exact claim_C2.1 (fun _ _ => .ok Json.null) [("company_name", Json.str "Acme Corp")]
      "add live data" _ _ rfl
  · exact (claim_C2.2 (fun _ _ => .ok Json.null) [("company_name", Json.str "Acme Corp")]).1

/-- The revision loop attempts exactly the selected evaluations whose
briefs are non-empty, in order, provided every selected evaluation's
agent is in the map (which the eligibility filter guarantees). -/
theorem reviseGo_attempted (agentMap : List (String × (RunFn × String)))
    (l : List EvalRec)
    (hmem : ∀ ev ∈ l, (match ev.agentName with
      | some n => (alookup n agentMap).isSome
      | none => false) = true)
    (ws upd : List (String × Json)) (tr : List String) :
    (reviseGo agentMap l ws upd tr).attempted =
      tr ++ l.filterMap (fun ev =>
        if (ev.revisionBrief.getD "").isEmpty then none else some (ev.agentName.getD "")) := by
  induction l generalizing ws upd tr with
  | nil => simp [reviseGo]
  | cons ev l ih =>
    have hev : (match ev.agentName with
        | some n => (alookup n agentMap).isSome
        | none => false) = true := hmem ev (List.mem_cons_self _ _)
    have htail : ∀ ev' ∈ l, (match ev'.agentName with
        | some n => (alookup n agentMap).isSome
        | none => false) = true := fun ev' h => hmem ev' (List.mem_cons_of_mem _ h)
    cases han : ev.agentName with
    | none => rw [han] at hev; simp at hev
    | some n =>
      have hs : (alookup n agentMap).isSome = true := by rw [han] at hev; exact hev
      have hgd : ev.agentName.getD "" = n := by rw [han]; rfl
      obtain ⟨fnkey, hlk⟩ := Option.isSome_iff_exists.mp hs
      obtain ⟨fn, key⟩ := fnkey
      show (if (ev.revisionBrief.getD "").isEmpty then reviseGo agentMap l ws upd tr
        else
          match alookup (ev.agentName.getD "") agentMap with
          | none => reviseGo agentMap l ws upd tr
          | some (fn, _) =>
            match callWithBrief fn ws (ev.revisionBrief.getD "") with
            | .ok result => reviseGo agentMap l (dictUpdate ws result) (dictUpdate upd result)
                (tr ++ [ev.agentName.getD ""])
            | .error _ => reviseGo agentMap l ws upd
                (tr ++ [ev.agentName.getD ""])).attempted = _
      rw [hgd, hlk]
      cases hbr : (ev.revisionBrief.getD "").isEmpty with
      | true =>
        simp only [hbr, if_true]
        rw [ih htail ws upd tr]
        simp [List.filterMap_cons, hbr]
      | false =>
        simp only [hbr, Bool.false_eq_true, if_false]
        cases hcall : callWithBrief fn ws (ev.revisionBrief.getD "") with
        | ok result =>
          rw [ih htail]
          simp [List.filterMap_cons, hbr, hgd]
        | error e =>
          rw [ih htail]
          simp [List.filterMap_cons, hbr, hgd]

/-- Every evaluation selected by the filter-sort-cap pipeline passed the
eligibility filter: it is flagged, scored strictly below 0.65, and its
agent name is present in the agent map. -/
theorem capped_eligible (agentMap : List (String × (RunFn × String)))
    (evals : List EvalRec) :
    ∀ ev ∈ (sortEvals (eligibleEvals agentMap evals)).take 3,
      ev.needsRevision = true ∧ scoreD ev < revThreshold ∧
      (match ev.agentName with
        | some n => (alookup n agentMap).isSome
        | none => false) = true := by
  intro ev hev
  have h1 : ev ∈ sortEvals (eligibleEvals agentMap evals) :=
    (List.take_sublist 3 _).mem hev
  have h2 : ev ∈ eligibleEvals agentMap evals :=
    (List.perm_insertionSort _ _).mem_iff.mp h1
  have h3 := (List.mem_filter.mp h2).2
  rcases (Bool.and_eq_true _ _).mp h3 with ⟨h4, h5⟩
  rcases (Bool.and_eq_true _ _).mp h4 with ⟨h6, h7⟩
  exact ⟨h6, of_decide_eq_true h7, h5⟩

/-- `revise_agents` attempts exactly the capped worst-first selection
restricted to non-empty briefs. -/
theorem reviseAgents_attempted (agentMap : List (String × (RunFn × String)))
    (ws : List (String × Json)) (evals : List EvalRec) :
    (reviseAgents agentMap ws evals).attempted =
      ((sortEvals (eligibleEvals agentMap evals)).take 3).filterMap (fun ev =>
        if (ev.revisionBrief.getD "").isEmpty then none
        else some (ev.agentName.getD "")) := by
  unfold reviseAgents
  rw [reviseGo_attempted agentMap _ (fun ev hev => (capped_eligible agentMap evals ev hev).2.2)]
  simp

/-- C10: in `revise_agents`, a selected agent (flagged, below 0.65, in
the map, among the 3 worst-scoring) with an empty or missing
`revision_brief` is silently skipped — the attempted revisions are
exactly the selected evaluations with non-empty briefs, in worst-first
order, with no next-worst agent substituted — so the number of agents
actually revised can be strictly smaller than both the cap of 3 and the
number of eligible agents. -/
theorem claim_C10 (agentMap : List (String × (RunFn × String)))
    (ws : List (String × Json)) (evals : List EvalRec) :
    (reviseAgents agentMap ws evals).attempted =
      ((sortEvals (eligibleEvals agentMap evals)).take 3).filterMap (fun ev =>
        if (ev.revisionBrief.getD "").isEmpty then none
        else some (ev.agentName.getD "")) :=
  reviseAgents_attempted agentMap ws evals

/-- C4 counterexample: with four eligible flagged agents below 0.65
(scores 0.1, 0.2, 0.3, 0.4, all registered) where the worst-scoring agent
`a` has no revision brief, the pass invokes only `b` and `c` — not the 3
lowest-scoring agents, and fewer than 3 — refuting the claim as stated. -/
theorem claim_C4_counterexample :
    (eligibleEvals c4Map c4Evals).length = 4 ∧
    (reviseAgents c4Map [] c4Evals).attempted = ["b", "c"] ∧
    "a" ∉ (reviseAgents c4Map [] c4Evals).attempted ∧
    (reviseAgents c4Map [] c4Evals).attempted.length < 3 := by
  refine ⟨rfl, by decide, by decide, by decide⟩

/-- A `filterMap` whose test rejects nothing is a `map`. -/
theorem filterMap_if_all_some {α β : Type} (l : List α) (p : α → Bool) (g : α → β)
    (h : ∀ a ∈ l, p a = false) :
    l.filterMap (fun a => if p a then none else some (g a)) = l.map g := by
  induction l with
  | nil => rfl
  | cons a l ih =>
    have ha := h a (by simp)
    rw [List.filterMap_cons, List.map_cons]
    simp only [ha, Bool.false_eq_true, if_false]
    rw [ih (fun a' h' => h a' (by simp [h']))]

/-- C4 (amended): the selection filters to flagged, strictly-below-0.65,
map-registered evaluations, stable-sorts them ascending by score, and
caps at 3; at most 3 revisions are attempted; every attempted agent is
among the capped worst-first selection; every selected score is ≤ every
unselected eligible score; and when every selected evaluation carries a
non-empty brief, the attempted agents are exactly the (up to) 3
lowest-scoring eligible ones, worst first. -/
theorem claim_C4_amended (agentMap : List (String × (RunFn × String)))
    (ws : List (String × Json)) (evals : List EvalRec) :
    (reviseAgents agentMap ws evals).attempted.length ≤ 3 ∧
    (∀ n ∈ (reviseAgents agentMap ws evals).attempted,
      n ∈ ((sortEvals (eligibleEvals agentMap evals)).take 3).map
        (fun ev => ev.agentName.getD "")) ∧
    (sortEvals (eligibleEvals agentMap evals)).Perm (eligibleEvals agentMap evals) ∧
    (∀ e ∈ (sortEvals (eligibleEvals agentMap evals)).take 3,
      ∀ e' ∈ (sortEvals (eligibleEvals agentMap evals)).drop 3,
        scoreD e ≤ scoreD e') ∧
    ((∀ ev ∈ (sortEvals (eligibleEvals agentMap evals)).take 3,
        (ev.revisionBrief.getD "").isEmpty = false) →
      (reviseAgents agentMap ws evals).attempted =
        ((sortEvals (eligibleEvals agentMap evals)).take 3).map
          (fun ev => ev.agentName.getD "")) := by
  have hchar := reviseAgents_attempted agentMap ws evals
  refine ⟨?_, ?_, List.perm_insertionSort _ _, ?_, ?_⟩
  · rw [hchar]
    calc (((sortEvals (eligibleEvals agentMap evals)).take 3).filterMap _).length
        ≤ ((sortEvals (eligibleEvals agentMap evals)).take 3).length :=
          List.length_filterMap_le _ _
      _ ≤ 3 := List.length_take_le _ _
  · intro n hn
    rw [hchar] at hn
    obtain ⟨ev, hev, hev2⟩ := List.mem_filterMap.mp hn
    cases hbr : (ev.revisionBrief.getD "").isEmpty with
    | true => rw [hbr] at hev2; simp at hev2
    | false =>
      rw [hbr] at hev2
      simp only [Bool.false_eq_true, if_false, Option.some_inj] at hev2
      exact hev2 ▸ List.mem_map_of_mem _ hev
  · have hsorted : (sortEvals (eligibleEvals agentMap evals)).Sorted
        (fun a b => scoreD a ≤ scoreD b) :=
      List.sorted_insertionSort _ _
    have hsplit := List.take_append_drop 3 (sortEvals (eligibleEvals agentMap evals))
    rw [List.Sorted, ← hsplit, List.pairwise_append] at hsorted
    exact hsorted.2.2
  · intro hall
    rw [hchar]
    exact filterMap_if_all_some _ _ _ hall

/-- Witness for the amended C4: with all four briefs present the pass
attempts exactly the 3 lowest-scoring agents, worst first. -/
theorem claim_C4_amended_witness :
    (reviseAgents c4Map [] c4EvalsW).attempted.length ≤ 3 ∧
    (reviseAgents c4Map [] c4EvalsW).attempted =
      ((sortEvals (eligibleEvals c4Map c4EvalsW)).take 3).map
        (fun ev => ev.agentName.getD "") ∧
    (reviseAgents c4Map [] c4EvalsW).attempted = ["a", "b", "c"] := by
  have h := claim_C4_amended c4Map [] c4EvalsW
  refine ⟨h.1, h.2.2.2.2 (by decide), by decide⟩

/-! ## Claim theorems: tool dispatch -/

/-- A pattern that starts the suffix `v` occurs in `u ++ v`. -/
theorem findSub_isSome_append (u v pat : List Char) (h : pat.isPrefixOf v) :
    (findSub (u ++ v) pat).isSome = true := by
  induction u with
  | nil =>
    rw [List.nil_append]
    unfold findSub
    rw [if_pos h]
    rfl
  | cons c u ih =>
    rw [List.cons_append]
    unfold findSub
    by_cases hp : pat.isPrefixOf (c :: (u ++ v))
    · rw [if_pos hp]
      rfl
    · rw [if_neg hp]
      show (Option.map (fun x => x + 1) (findSub (u ++ v) pat)).isSome = true
      cases hcase : findSub (u ++ v) pat with
      | none => rw [hcase] at ih; exact absurd ih (by simp)
      | some i => rfl

/-- Inclusion of a pattern that starts a suffix. -/
theorem containsSub_append_of_prefix (u v pat : List Char) (h : pat.isPrefixOf v) :
    containsSub (u ++ v) pat = true := by
  unfold containsSub
  exact findSub_isSome_append u v pat h

/-- A successful `alookup` binding is a member of the list. -/
theorem alookup_mem {α : Type} (m : List (String × α)) (k : String) (v : α)
    (h : alookup k m = some v) : (k, v) ∈ m := by
  induction m with
  | nil => simp [alookup] at h
  | cons kv m ih =>
    obtain ⟨k1, v1⟩ := kv
    by_cases hk : k1 = k
    · subst hk
      have h' : v1 = v := by simpa [alookup] using h
      exact h' ▸ List.mem_cons_self _ _
    · simp only [alookup, if_neg hk] at h
      exact List.mem_cons_of_mem _ (ih h)

/-- C6: `execute_tool_call` is total — it never raises.  Dispatching an
unregistered tool name returns the serialized standard error shape with
`error="tool_unavailable"`, the failing name, an error message, and a
non-empty `action` naming the `web_search` fallback; an exception raised
by a registered tool's implementation is caught and converted into the
same shape carrying that tool's statically declared fallback (which is
`web_search` for every tool in the table). -/
theorem claim_C6 (env : String → Json → Except String String)
    (toolName : String) (toolInput : Json) :
    (registeredToolNames.contains toolName = false →
      executeToolCall env toolName toolInput =
        jsonDumps (Json.obj
          [ ("error", Json.str "tool_unavailable"),
            ("tool", Json.str toolName),
            ("message", Json.str ("Unknown tool '" ++ toolName ++ "'")),
            ("action", Json.str "Use 'web_search' to find the same information instead.") ])) ∧
    (registeredToolNames.contains toolName = true →
      ∀ exc, env toolName toolInput = .error exc →
        executeToolCall env toolName toolInput =
          jsonDumps (Json.obj
            [ ("error", Json.str "tool_unavailable"),
              ("tool", Json.str toolName),
              ("message", Json.str exc),
              ("action", Json.str ("Use '" ++ fallbackFor toolName ++
                "' to find the same information instead.")) ])) ∧
    (∀ n : String, fallbackFor n = "web_search") ∧
    (∀ fb : String,
      0 < ("Use '" ++ fb ++ "' to find the same information instead.").length ∧
      containsSub ("Use '" ++ fb ++ "' to find the same information instead.").toList
        fb.toList = true) := by
  refine ⟨?_, ?_, ?_, ?_⟩
  · intro h
    unfold executeToolCall
    rw [h]
    rfl
  · intro h exc henv
    unfold executeToolCall
    rw [h, henv]
    rfl
  · intro n
    cases hlk : alookup n fallbacksTable with
    | none =>
      unfold fallbackFor
      rw [hlk]
    | some f =>
      have hall : ∀ kv ∈ fallbacksTable, kv.2 = "web_search" := by decide
      have hf : f = "web_search" := by simpa using hall (n, f) (alookup_mem _ _ _ hlk)
      unfold fallbackFor
      rw [hlk, hf]
  · intro fb
    constructor
    · have hlen : ("Use '" ++ fb ++ "' to find the same information instead.").length =
          "Use '".length + fb.length + "' to find the same information instead.".length := by
        simp [String.length_append]
      rw [hlen]
      have : 0 < "Use '".length := by decide
      omega
    · have hsplit : ("Use '" ++ fb ++ "' to find the same information instead.").toList =
          "Use '".toList ++ (fb.toList ++ "' to find the same information instead.".toList) := by
        simp
      rw [hsplit]
      exact containsSub_append_of_prefix _ _ _
        (List.isPrefixOf_iff_prefix.mpr (List.prefix_append _ _))

/-- Witness for C6 at a concrete unregistered name, and a registered tool
whose implementation raises. -/
theorem claim_C6_witness :
    registeredToolNames.contains "frobnicate" = false ∧
    executeToolCall (fun _ _ => .ok "fine") "frobnicate" Json.null =
      jsonDumps (Json.obj
        [ ("error", Json.str "tool_unavailable"),
          ("tool", Json.str "frobnicate"),
          ("message", Json.str "Unknown tool 'frobnicate'"),
          ("action", Json.str "Use 'web_search' to find the same information instead.") ]) ∧
    executeToolCall (fun _ _ => .error "quota exceeded") "yf_get_info" Json.null =
      jsonDumps (Json.obj
        [ ("error", Json.str "tool_unavailable"),
          ("tool", Json.str "yf_get_info"),
          ("message", Json.str "quota exceeded"),
          ("action", Json.str ("Use '" ++ fallbackFor "yf_get_info" ++
            "' to find the same information instead.")) ]) := by
  refine ⟨by decide, ?_, ?_⟩
  · exact (claim_C6 (fun _ _ => .ok "fine") "frobnicate" Json.null).1 (by decide)
  · exact (claim_C6 (fun _ _ => .error "quota exceeded") "yf_get_info" Json.null).2.1
      (by decide) "quota exceeded" rfl

/-! ## Claim theorems: round-budget exhaustion -/

/-- If every round in the window requests a tool call, the loop falls
through to the sentinel. -/
theorem runAgentGo_exhausts (responses : Nat → ModelResponse) :
    ∀ (remaining i : Nat),
      (∀ j, i ≤ j → j < i + remaining → (responses j).toolUses ≠ []) →
      runAgentGo responses i remaining = pyParseJsonResponse sentinelText.toList := by
  intro remaining
  induction remaining with
  | zero => intro i _; rfl
  | succ r ih =>
    intro i h
    have hne : (responses i).toolUses ≠ [] := h i (Nat.le_refl i) (by omega)
    have hempty : (responses i).toolUses.isEmpty = false := by
      cases hh : (responses i).toolUses.isEmpty with
      | true => exact absurd (List.isEmpty_iff.mp hh) hne
      | false => rfl
    show (if (responses i).toolUses.isEmpty then _ else _) = _
    rw [hempty]
    simp only [Bool.false_eq_true, if_false]
    exact ih (i + 1) (fun j h1 h2 => h j (by omega) (by omega))

/-- C8: if the conversation loop completes all `max_iterations` rounds
with the model requesting tool calls every round, `run_agent` returns
normally with the canonical sentinel text — which contains the phrase
"exceeded maximum iterations" — and `_parse_json_response` turns it into
`{"raw": <sentinel text>}`, exactly like any other unstructured output. -/
theorem claim_C8 (responses : Nat → ModelResponse) (maxIterations : Nat)
    (h : ∀ i, i < maxIterations → (responses i).toolUses ≠ []) :
    runAgentModel responses maxIterations = .ok (rawObj sentinelText.toList) ∧
    containsSub sentinelText.toList "exceeded maximum iterations".toList = true := by
  constructor
  · have hgo := runAgentGo_exhausts responses maxIterations 0
      (fun j h1 h2 => h j (by omega))
    rw [runAgentModel, hgo]
    rfl
  · rfl

/-- Witness for C8: a stream that always requests `web_search`, with the
default budget of 10 rounds. -/
theorem claim_C8_witness :
    runAgentModel c8Responses 10 = .ok (rawObj sentinelText.toList) := by
  exact (claim_C8 c8Responses 10 (fun i _ => by simp [c8Responses])).1


/-! ## Claim theorems: structured-result extraction (`_parse_json_response`) -/

theorem findSub_prefix (t pat : List Char) (h : pat.isPrefixOf t = true) :
    findSub t pat = some 0 := by
  unfold findSub
  simp only [h, if_true]

theorem isPrefixOf_head_ne {pat : List Char} {hc c : Char} (t : List Char)
    (hh : pat.head? = some hc) (hne : ¬ c = hc) :
    pat.isPrefixOf (c :: t) = false := by
  cases pat with
  | nil => simp at hh
  | cons p ps =>
    have hp : p = hc := by simpa using hh
    subst hp
    show (p == c && ps.isPrefixOf t) = false
    rw [beq_eq_false_iff_ne.mpr (fun h => hne h.symm)]
    rfl

theorem findSub_none_of_all_ne (pat : List Char) (hc : Char) (hh : pat.head? = some hc) :
    ∀ t : List Char, (∀ c ∈ t, ¬ c = hc) → findSub t pat = none := by
  intro t
  induction t with
  | nil =>
    intro _
    unfold findSub
    cases pat with
    | nil => simp at hh
    | cons p ps => simp
  | cons c t ih =>
    intro ht
    unfold findSub
    have hpf := isPrefixOf_head_ne t hh (ht c (List.mem_cons_self _ _))
    simp only [hpf, Bool.false_eq_true, if_false]
    rw [ih (fun c' h' => ht c' (List.mem_cons_of_mem _ h'))]
    rfl

theorem findSub_append_of_all_ne (pat : List Char) (hc : Char) (hh : pat.head? = some hc)
    (v : List Char) (hv : pat.isPrefixOf v = true) :
    ∀ u : List Char, (∀ c ∈ u, ¬ c = hc) → findSub (u ++ v) pat = some u.length := by
  intro u
  induction u with
  | nil =>
    intro _
    rw [List.nil_append]
    exact findSub_prefix v pat hv
  | cons c u ih =>
    intro hu
    rw [List.cons_append]
    unfold findSub
    have hpf := isPrefixOf_head_ne (u ++ v) hh (hu c (List.mem_cons_self _ _))
    simp only [hpf, Bool.false_eq_true, if_false]
    rw [ih (fun c' h' => hu c' (List.mem_cons_of_mem _ h'))]
    rfl

theorem backtickFree_mem {t : List Char} (h : backtickFree t = true) :
    ∀ c ∈ t, ¬ c = '\x60' := by
  intro c hcm
  simpa using List.all_eq_true.mp h c hcm

theorem braceFree_no_open {t : List Char} (h : braceFree t = true) :
    ∀ c ∈ t, ¬ c = '\x7b' := by
  intro c hcm
  have := List.all_eq_true.mp h c hcm
  rcases (Bool.and_eq_true _ _).mp this with ⟨h1, _⟩
  simpa using h1

/-- Backtick-free text keeps both fence checks of `fenceClean` silent. -/
theorem fenceClean_backtickFree (text : List Char) (h : backtickFree text = true) :
    fenceClean text = .ok text := by
  have h1 : containsSub text jsonFencePat = false := by
    unfold containsSub
    rw [findSub_none_of_all_ne jsonFencePat '\x60' rfl text (backtickFree_mem h)]
    rfl
  have h2 : containsSub text fencePat = false := by
    unfold containsSub
    rw [findSub_none_of_all_ne fencePat '\x60' rfl text (backtickFree_mem h)]
    rfl
  unfold fenceClean
  simp only [h1, h2, Bool.false_eq_true, if_false]

theorem pyStrip_cons_ws (c : Char) (h : pyIsSpace c = true) (cs : List Char) :
    pyStrip (c :: cs) = pyStrip cs := by
  unfold pyStrip
  simp only [List.dropWhile_cons, h, if_true]

theorem pyStrip_append_ws (c : Char) (h : pyIsSpace c = true) (cs : List Char) :
    pyStrip (cs ++ [c]) = pyStrip cs := by
  unfold pyStrip
  rw [List.dropWhile_append]
  cases hd : (List.dropWhile pyIsSpace cs).isEmpty with
  | true =>
    have hnil : List.dropWhile pyIsSpace cs = [] := List.isEmpty_iff.mp hd
    simp only [hd, if_true, hnil]
    simp [List.dropWhile_cons, h]
  | false =>
    simp only [hd, Bool.false_eq_true, if_false]
    rw [List.reverse_append]
    simp [List.dropWhile_cons, h]

theorem findIdx_open_append (rest : List Char) (hh : rest.head? = some '\x7b') :
    ∀ (p : List Char), (∀ c ∈ p, ¬ c = '\x7b') → ∀ i : Nat,
      List.findIdx? (fun c => c = '\x7b') (p ++ rest) i = some (p.length + i) := by
  intro p
  induction p with
  | nil =>
    intro _ i
    cases rest with
    | nil => simp at hh
    | cons r rest' =>
      have hr : r = '\x7b' := by simpa using hh
      rw [List.nil_append]
      show (if (r = '\x7b' : Bool) then some i
        else List.findIdx? (fun c => c = '\x7b') rest' (i + 1)) = some ([].length + i)
      simp [hr]
  | cons c p ih =>
    intro hp i
    rw [List.cons_append]
    show (if (c = '\x7b' : Bool) then some i
      else List.findIdx? (fun c => c = '\x7b') (p ++ rest) (i + 1)) = some ((c :: p).length + i)
    have hc : (c = '\x7b' : Bool) = false := by
      simpa using hp c (List.mem_cons_self _ _)
    simp only [hc, Bool.false_eq_true, if_false]
    rw [ih (fun c' h' => hp c' (List.mem_cons_of_mem _ h')) (i + 1)]
    congr 1
    simp only [List.length_cons]
    omega

theorem braceDepthFrom_open (d : Int) (l : List Char) :
    braceDepthFrom d ('\x7b' :: l) = braceDepthFrom (d + 1) l := rfl

theorem braceDepthFrom_close (d : Int) (l : List Char) :
    braceDepthFrom d ('\x7d' :: l) = braceDepthFrom (d - 1) l := rfl

theorem braceDepthFrom_other (d : Int) (c : Char) (l : List Char)
    (h1 : ¬ c = '\x7b') (h2 : ¬ c = '\x7d') :
    braceDepthFrom d (c :: l) = braceDepthFrom d l := by
  unfold braceDepthFrom
  rw [List.foldl_cons, if_neg h1, if_neg h2]

theorem braceScanLen_cons_open (cs : List Char) (d : Int) :
    braceScanLen ('\x7b' :: cs) d = (braceScanLen cs (d + 1)).map (· + 1) := rfl

theorem braceScanLen_cons_close (cs : List Char) (d : Int) :
    braceScanLen ('\x7d' :: cs) d =
      if d - 1 = 0 then some 1 else (braceScanLen cs (d - 1)).map (· + 1) := rfl

theorem braceScanLen_cons_other (c : Char) (cs : List Char) (d : Int)
    (h1 : ¬ c = '\x7b') (h2 : ¬ c = '\x7d') :
    braceScanLen (c :: cs) d = (braceScanLen cs d).map (· + 1) := by
  conv_lhs => rw [braceScanLen]
  rw [if_neg h1, if_neg h2]

/-- The brace scan of `_parse_json_response` consumes exactly a block
whose running depth stays positive until it ends at zero on its final
`'}'`, whatever follows. -/
theorem braceScanLen_spec :
    ∀ (s : List Char) (d : Int) (q : List Char),
      s ≠ [] →
      (∀ n, n < s.length → 0 < n → 0 < braceDepthFrom d (s.take n)) →
      braceDepthFrom d s = 0 →
      s.getLast? = some '\x7d' →
      braceScanLen (s ++ q) d = some s.length := by
  intro s
  induction s with
  | nil => intro d q hne _ _ _; exact absurd rfl hne
  | cons c s ih =>
    intro d q _ hpos htot hlast
    cases s with
    | nil =>
      have hc : c = '\x7d' := by simpa using hlast
      subst hc
      have hd : d - 1 = 0 := by
        rw [braceDepthFrom_close] at htot
        simpa [braceDepthFrom] using htot
      rw [List.cons_append, braceScanLen_cons_close, if_pos hd]
      rfl
    | cons c2 s2 =>
      have hne' : (c2 :: s2) ≠ [] := by simp
      have hlast' : (c2 :: s2).getLast? = some '\x7d' := by
        rw [← List.getLast?_cons_cons (a := c) (b := c2) (l := s2)]
        exact hlast
      have hstep1 : 0 < braceDepthFrom d [c] := by
        refine hpos 1 ?_ (by omega)
        simp only [List.length_cons]
        omega
      by_cases hc1 : c = '\x7b'
      · subst hc1
        have hd1 : braceDepthFrom d ['\x7b'] = d + 1 := rfl
        have htot' : braceDepthFrom (d + 1) (c2 :: s2) = 0 := by
          rw [← braceDepthFrom_open]
          exact htot
        have hpos' : ∀ n, n < (c2 :: s2).length → 0 < n →
            0 < braceDepthFrom (d + 1) ((c2 :: s2).take n) := by
          intro n hn h0
          have := hpos (n + 1) (by simp only [List.length_cons] at hn ⊢; omega) (by omega)
          rw [List.take_succ_cons, braceDepthFrom_open] at this
          exact this
        rw [List.cons_append, braceScanLen_cons_open,
          ih (d + 1) q hne' hpos' htot' hlast']
        rfl
      · by_cases hc2 : c = '\x7d'
        · subst hc2
          have hd1 : 0 < d - 1 := by
            rw [braceDepthFrom_close] at hstep1
            simpa [braceDepthFrom] using hstep1
          have htot' : braceDepthFrom (d - 1) (c2 :: s2) = 0 := by
            rw [← braceDepthFrom_close]
            exact htot
          have hpos' : ∀ n, n < (c2 :: s2).length → 0 < n →
              0 < braceDepthFrom (d - 1) ((c2 :: s2).take n) := by
            intro n hn h0
            have := hpos (n + 1) (by simp only [List.length_cons] at hn ⊢; omega) (by omega)
            rw [List.take_succ_cons, braceDepthFrom_close] at this
            exact this
          rw [List.cons_append, braceScanLen_cons_close, if_neg (by omega),
            ih (d - 1) q hne' hpos' htot' hlast']
          rfl
        · have htot' : braceDepthFrom d (c2 :: s2) = 0 := by
            rw [← braceDepthFrom_other d c _ hc1 hc2]
            exact htot
          have hpos' : ∀ n, n < (c2 :: s2).length → 0 < n →
              0 < braceDepthFrom d ((c2 :: s2).take n) := by
            intro n hn h0
            have := hpos (n + 1) (by simp only [List.length_cons] at hn ⊢; omega) (by omega)
            rw [List.take_succ_cons, braceDepthFrom_other d c _ hc1 hc2] at this
            exact this
          rw [List.cons_append, braceScanLen_cons_other c _ d hc1 hc2,
            ih d q hne' hpos' htot' hlast']
          rfl

/-- With brace-free prose before and after, the first balanced span of
`p ++ s ++ q` is exactly `s` when every brace of `s` is structural. -/
theorem firstSpan_concat (p s q : List Char) (hp : ∀ c ∈ p, ¬ c = '\x7b')
    (hex : braceExact s) :
    firstSpan (p ++ s ++ q) = some s := by
  obtain ⟨hhead, hlast, htot, hpos⟩ := hex
  have hne : s ≠ [] := by
    cases s with
    | nil => simp at hhead
    | cons a l => simp
  have hheadapp : (s ++ q).head? = some '\x7b' := by
    cases s with
    | nil => simp at hhead
    | cons a l => simpa using hhead
  have hassoc : p ++ s ++ q = p ++ (s ++ q) := by
    rw [List.append_assoc]
  unfold firstSpan
  rw [hassoc, findIdx_open_append (s ++ q) hheadapp p hp 0]
  have hidx : p.length + 0 = p.length := by omega
  rw [hidx]
  show (match braceScanLen (List.drop p.length (p ++ (s ++ q))) 0 with
    | none => none
    | some len => some (List.take len (List.drop p.length (p ++ (s ++ q))))) = some s
  rw [List.drop_left, braceScanLen_spec s 0 q hne hpos htot hlast]
  show some (List.take s.length (s ++ q)) = some s
  rw [List.take_left]


/-- When the cleaned text parses, `_parse_json_response` returns the
parsed value. -/
theorem pyParse_of_clean (text cleaned : List Char)
    (hc : fenceClean text = .ok cleaned) (v : Json)
    (hl : jsonLoads cleaned = some v) :
    pyParseJsonResponse text = .ok v := by
  unfold pyParseJsonResponse
  rw [hc]
  show (match jsonLoads cleaned with
    | some v => (Except.ok v : Except PyErr Json)
    | none =>
      match firstSpan text with
      | none => Except.ok (rawObj text)
      | some span =>
        match jsonLoads span with
        | some v => Except.ok v
        | none => Except.ok (rawObj text)) = Except.ok v
  rw [hl]

/-- When the cleaned text fails to parse but the first balanced span
parses, `_parse_json_response` returns the span's value. -/
theorem pyParse_of_span (text cleaned span : List Char)
    (hc : fenceClean text = .ok cleaned)
    (hl : jsonLoads cleaned = none)
    (hs : firstSpan text = some span) (v : Json)
    (hv : jsonLoads span = some v) :
    pyParseJsonResponse text = .ok v := by
  unfold pyParseJsonResponse
  rw [hc]
  show (match jsonLoads cleaned with
    | some v => (Except.ok v : Except PyErr Json)
    | none =>
      match firstSpan text with
      | none => Except.ok (rawObj text)
      | some span =>
        match jsonLoads span with
        | some v => Except.ok v
        | none => Except.ok (rawObj text)) = Except.ok v
  rw [hl]
  show (match firstSpan text with
    | none => (Except.ok (rawObj text) : Except PyErr Json)
    | some span =>
      match jsonLoads span with
      | some v => Except.ok v
      | none => Except.ok (rawObj text)) = Except.ok v
  rw [hs]
  show (match jsonLoads span with
    | some v => (Except.ok v : Except PyErr Json)
    | none => Except.ok (rawObj text)) = Except.ok v
  rw [hv]

theorem backtickFree_append (u v : List Char) :
    backtickFree (u ++ v) = (backtickFree u && backtickFree v) := by
  simp [backtickFree, List.all_append]

/-- C7 counterexample: the claim as stated fails on concrete inputs.
(i) For the object `{"a": "}"}` — whose serialization carries a brace
inside a string literal — surrounding it with brace-free, backtick-free
prose makes the extractor return `{"raw": <text>}` instead of the parsed
object, because the naive depth scan cuts the span at the brace inside
the string.  (ii) On text with an opened but unclosed ```json fence the
extractor raises `ValueError` (from `str.index`) instead of returning
`{"raw": <text>}`, although no balanced brace span parses there. -/
theorem claim_C7_counterexample :
    jsonLoads "\x7b\"a\": \"\x7d\"\x7d".toList = some (Json.obj [("a", Json.str "\x7d")]) ∧
    pyParseJsonResponse ("see " ++ "\x7b\"a\": \"\x7d\"\x7d" ++ " done").toList =
      .ok (rawObj ("see " ++ "\x7b\"a\": \"\x7d\"\x7d" ++ " done").toList) ∧
    (Except.ok (rawObj ("see " ++ "\x7b\"a\": \"\x7d\"\x7d" ++ " done").toList) ≠
      (Except.ok (Json.obj [("a", Json.str "\x7d")]) : Except PyErr Json)) ∧
    pyParseJsonResponse "```json\x7b".toList = .error PyErr.valueError ∧
    firstSpan "```json\x7b".toList = none := by
  refine ⟨rfl, rfl, ?_, rfl, rfl⟩
  intro h
  simp only [Except.ok.injEq, rawObj] at h
  have h2 := h
  injection h2 with h3
  injection h3 with h4 _
  injection h4 with h5 _
  exact absurd h5 (by decide)

/-- C7 (amended): for every string `s` parsing as a JSON object `o` that
is backtick-free, trimmed, and whose braces are all structural
(`braceExact` — forced by the counterexample: braces inside string
literals defeat the span scan), the extractor returns the identical
parsed object for (a) `s` bare, (b) `s` inside a ```json fence, and
(c) `s` surrounded by brace-free, backtick-free prose such that the
whole text is not itself valid JSON (forced: prose like `[`/`]` can make
the whole text parse as a different JSON document).  And the extractor
returns `{"raw": <text>}` — rather than raising — for any text whose
opened fences are closed (forced: an unclosed fence raises `ValueError`),
whose cleaned form does not parse, and whose first balanced brace span,
if any, does not parse. -/
theorem claim_C7_amended :
    (∀ (s : List Char) (o : List (String × Json)),
      jsonLoads s = some (Json.obj o) →
      backtickFree s = true →
      pyStrip s = s →
      braceExact s →
      pyParseJsonResponse s = .ok (Json.obj o) ∧
      pyParseJsonResponse ("```json\n".toList ++ s ++ "\n```".toList) = .ok (Json.obj o) ∧
      (∀ p q : List Char,
        backtickFree p = true → braceFree p = true →
        backtickFree q = true → braceFree q = true →
        jsonLoads (p ++ s ++ q) = none →
        pyParseJsonResponse (p ++ s ++ q) = .ok (Json.obj o))) ∧
    (∀ text cleaned : List Char,
      fenceClean text = .ok cleaned →
      jsonLoads cleaned = none →
      (∀ span, firstSpan text = some span → jsonLoads span = none) →
      pyParseJsonResponse text = .ok (rawObj text)) := by
  constructor
  · intro s o hload hbt hstrip hex
    refine ⟨?_, ?_, ?_⟩
    · exact pyParse_of_clean s s (fenceClean_backtickFree s hbt) _ hload
    · show pyParseJsonResponse (jsonFencePat ++ ('\n' :: (s ++ '\n' :: fencePat))) =
        .ok (Json.obj o)
      have hpre : jsonFencePat.isPrefixOf
          (jsonFencePat ++ ('\n' :: (s ++ '\n' :: fencePat))) = true :=
        List.isPrefixOf_iff_prefix.mpr (List.prefix_append _ _)
      have hfind1 : findSub (jsonFencePat ++ ('\n' :: (s ++ '\n' :: fencePat)))
          jsonFencePat = some 0 := findSub_prefix _ _ hpre
      have hcont1 : containsSub (jsonFencePat ++ ('\n' :: (s ++ '\n' :: fencePat)))
          jsonFencePat = true := by
        unfold containsSub
        rw [hfind1]
        rfl
      have hdrop : (jsonFencePat ++ ('\n' :: (s ++ '\n' :: fencePat))).drop 7 =
          '\n' :: (s ++ '\n' :: fencePat) := by
        have h7 : jsonFencePat.length = 7 := rfl
        rw [← h7, List.drop_left]
      have hsplit2 : '\n' :: (s ++ '\n' :: fencePat) =
          ('\n' :: (s ++ ['\n'])) ++ fencePat := by
        simp
      have hufree : ∀ c ∈ ('\n' :: (s ++ ['\n'])), ¬ c = '\x60' := by
        intro c hc
        rcases List.mem_cons.mp hc with h | h
        · subst h; decide
        · rcases List.mem_append.mp h with h | h
          · exact backtickFree_mem hbt c h
          · have : c = '\n' := by simpa using h
            subst this; decide
      have hfind2 : findSub (('\n' :: (s ++ ['\n'])) ++ fencePat) fencePat =
          some ('\n' :: (s ++ ['\n'])).length :=
        findSub_append_of_all_ne fencePat '\x60' rfl fencePat (by decide) _ hufree
      have hlen : ('\n' :: (s ++ ['\n'])).length = s.length + 2 := by
        simp
      have hfrom : findSubFrom (jsonFencePat ++ ('\n' :: (s ++ '\n' :: fencePat)))
          fencePat 7 = some (s.length + 2 + 7) := by
        unfold findSubFrom
        rw [hdrop, hsplit2, hfind2, hlen]
        rfl
      have hslice : pySlice (jsonFencePat ++ ('\n' :: (s ++ '\n' :: fencePat))) 7
          (s.length + 2 + 7) = '\n' :: (s ++ ['\n']) := by
        unfold pySlice
        rw [hdrop]
        have h1 : s.length + 2 + 7 - 7 = s.length + 2 := by omega
        rw [h1, hsplit2, ← hlen, List.take_left]
      have hstrip2 : pyStrip ('\n' :: (s ++ ['\n'])) = s := by
        rw [pyStrip_cons_ws '\n' (by decide), pyStrip_append_ws '\n' (by decide), hstrip]
      have hclean : fenceClean (jsonFencePat ++ ('\n' :: (s ++ '\n' :: fencePat))) =
          .ok s := by
        unfold fenceClean
        simp only [hcont1, if_true]
        rw [hfind1]
        show (match findSubFrom (jsonFencePat ++ ('\n' :: (s ++ '\n' :: fencePat)))
            fencePat 7 with
          | some e => (Except.ok (pyStrip (pySlice
              (jsonFencePat ++ ('\n' :: (s ++ '\n' :: fencePat))) 7 e)) :
              Except PyErr (List Char))
          | none => Except.error PyErr.valueError) = Except.ok s
        rw [hfrom]
        show Except.ok (pyStrip (pySlice
            (jsonFencePat ++ ('\n' :: (s ++ '\n' :: fencePat))) 7 (s.length + 2 + 7))) =
          Except.ok s
        rw [hslice, hstrip2]
      exact pyParse_of_clean _ s hclean _ hload
    · intro p q hpbt hpbr hqbt hqbr hfail
      have hbtall : backtickFree (p ++ s ++ q) = true := by
        rw [backtickFree_append, backtickFree_append, hpbt, hbt, hqbt]
        rfl
      have hspan : firstSpan (p ++ s ++ q) = some s :=
        firstSpan_concat p s q (braceFree_no_open hpbr) hex
      exact pyParse_of_span (p ++ s ++ q) _ s (fenceClean_backtickFree _ hbtall)
        hfail hspan _ hload
  · intro text cleaned hc hl hspan
    unfold pyParseJsonResponse
    rw [hc]
    show (match jsonLoads cleaned with
      | some v => (Except.ok v : Except PyErr Json)
      | none =>
        match firstSpan text with
        | none => Except.ok (rawObj text)
        | some span =>
          match jsonLoads span with
          | some v => Except.ok v
          | none => Except.ok (rawObj text)) = Except.ok (rawObj text)
    rw [hl]
    show (match firstSpan text with
      | none => (Except.ok (rawObj text) : Except PyErr Json)
      | some span =>
        match jsonLoads span with
        | some v => Except.ok v
        | none => Except.ok (rawObj text)) = Except.ok (rawObj text)
    cases hfs : firstSpan text with
    | none => rfl
    | some span =>
      show (match jsonLoads span with
        | some v => (Except.ok v : Except PyErr Json)
        | none => Except.ok (rawObj text)) = Except.ok (rawObj text)
      rw [hspan span hfs]

/-- Witness for the amended C7 at the object `{"a": 1}`: bare, fenced
with a json tag, surrounded by prose, and the raw fallback on
brace-free non-JSON text. -/
theorem claim_C7_amended_witness :
    pyParseJsonResponse "\x7b\"a\": 1\x7d".toList = .ok (Json.obj [("a", Json.num 1)]) ∧
    pyParseJsonResponse ("```json\n".toList ++ "\x7b\"a\": 1\x7d".toList ++ "\n```".toList) =
      .ok (Json.obj [("a", Json.num 1)]) ∧
    pyParseJsonResponse ("Result: ".toList ++ "\x7b\"a\": 1\x7d".toList ++ " done".toList) =
      .ok (Json.obj [("a", Json.num 1)]) ∧
    pyParseJsonResponse "no json here".toList = .ok (rawObj "no json here".toList) := by
  have h := claim_C7_amended.1 "\x7b\"a\": 1\x7d".toList [("a", Json.num 1)]
    rfl (by decide) (by decide) (by decide)
  refine ⟨h.1, h.2.1, h.2.2 "Result: ".toList " done".toList
    (by decide) (by decide) (by decide) (by decide) rfl, ?_⟩
  refine claim_C7_amended.2 "no json here".toList "no json here".toList rfl rfl ?_
  intro span hs
  rw [show firstSpan "no json here".toList = none from rfl] at hs
  exact absurd hs (by simp)

end DD
